import Mathlib

/-!
# Verification of the förskoleenkäten parsing pipeline

A shallow embedding, in Lean 4, of the extraction/inference core of the
survey-report parsing pipeline (`src/pipeline/src/parser/`):

* `utils.ts`   — question-text normalization (`cleanQuestionText`);
* `charts.ts`  — the mean-guided category-assignment algorithm
  (`assignCategories`), the response-distribution parser
  (`parseResponseDistributions`) and the demographics parser
  (`parseDemographics`);
* `tables.ts`  — format detection (`detectFormat`), the 5-point era column
  layout detection (`detectColumnLayout5Point`) and mean-row parsing
  (`parseMeanRows5Point`);
* `xls.ts`     — spreadsheet leaf-sheet resolution (`findUnitSheetIds`).

Strings are modelled as lists of characters; JavaScript numbers as exact
rationals (`ℚ`); `number | null` as `Option ℚ`; JavaScript objects/maps as
association lists in insertion order.  The small set of regular expressions
used by the code is translated into explicit decidable matching functions
with JavaScript semantics (case-insensitivity over the Swedish alphabet,
word boundaries over `[A-Za-z0-9_]`, `.` not matching a newline).
-/

namespace Forskole

/-! ## Character-level utilities (JavaScript semantics) -/

/-- JavaScript whitespace (`\s`, `trim`), restricted to the characters that
occur in the documents: ASCII whitespace and no-break space. -/
def isWsJS (c : Char) : Bool :=
  c == ' ' || c == '\t' || c == '\n' || c == '\r' ||
  c == '\x0b' || c == '\x0c' || c == ' '

/-- JavaScript `\d`. -/
def isDigitJS (c : Char) : Bool :=
  '0' ≤ c && c ≤ '9'

/-- JavaScript `\w` (= `[A-Za-z0-9_]`; note that `Å`, `Ä`, `Ö` are *not*
word characters for a non-unicode regex). -/
def isWordJS (c : Char) : Bool :=
  ('a' ≤ c && c ≤ 'z') || ('A' ≤ c && c ≤ 'Z') || isDigitJS c || c == '_'

/-- Upper/lower-case pairs realising `String.prototype.toLowerCase` on the
alphabet actually occurring in the documents (ASCII plus `Å`, `Ä`, `Ö`, `É`). -/
def lowerPairs : List (Char × Char) :=
  [('A', 'a'), ('B', 'b'), ('C', 'c'), ('D', 'd'), ('E', 'e'), ('F', 'f'),
   ('G', 'g'), ('H', 'h'), ('I', 'i'), ('J', 'j'), ('K', 'k'), ('L', 'l'),
   ('M', 'm'), ('N', 'n'), ('O', 'o'), ('P', 'p'), ('Q', 'q'), ('R', 'r'),
   ('S', 's'), ('T', 't'), ('U', 'u'), ('V', 'v'), ('W', 'w'), ('X', 'x'),
   ('Y', 'y'), ('Z', 'z'), ('Å', 'å'), ('Ä', 'ä'), ('Ö', 'ö'), ('É', 'é')]

/-- JavaScript `toLowerCase`, one character at a time. -/
def toLowerJS (c : Char) : Char :=
  match lowerPairs.find? (fun p => p.1 == c) with
  | some p => p.2
  | none => c

/-- Lower-case an entire character list (JavaScript `toLowerCase`). -/
def lowerAll (cs : List Char) : List Char :=
  cs.map toLowerJS

/-! ## `cleanQuestionText` (utils.ts lines 82–98)

```ts
let cleaned = text
  .replace(/^[……]+\s*/, "")
  .replace(/^\.{2,}\s*/, "")
  .replace(/\s+/g, " ")
  .trim();
if (cleaned.length > 0) cleaned = cleaned[0].toLowerCase() + cleaned.substring(1);
if (cleaned.length > 500) cleaned = cleaned.substring(0, 500);
```
-/

/-- `replace(/^[……]+\s*/, "")`: both class members are U+2026, so the
class is the single ellipsis character. -/
def stripEllipsisRun (cs : List Char) : List Char :=
  match cs with
  | c :: _ => if c == '…' then (cs.dropWhile (· == '…')).dropWhile isWsJS else cs
  | [] => []

/-- `replace(/^\.{2,}\s*/, "")`. -/
def stripDotsRun (cs : List Char) : List Char :=
  match cs with
  | c1 :: c2 :: rest =>
    if c1 == '.' && c2 == '.' then (rest.dropWhile (· == '.')).dropWhile isWsJS
    else cs
  | _ => cs

/-- `replace(/\s+/g, " ")`: every maximal whitespace run becomes a single
space.  The boolean argument records whether the previous character was part
of a whitespace run whose space has already been emitted. -/
def collapseWsAux : Bool → List Char → List Char
  | _, [] => []
  | prevWs, c :: rest =>
    if isWsJS c then
      if prevWs then collapseWsAux true rest
      else ' ' :: collapseWsAux true rest
    else c :: collapseWsAux false rest

def collapseWs (cs : List Char) : List Char :=
  collapseWsAux false cs

/-- JavaScript `trim()`. -/
def trimJS (cs : List Char) : List Char :=
  ((cs.dropWhile isWsJS).reverse.dropWhile isWsJS).reverse

/-- `cleaned[0].toLowerCase() + cleaned.substring(1)` (guarded by
`cleaned.length > 0` in the source; the empty case is the identity here too). -/
def lowerFirst : List Char → List Char
  | [] => []
  | c :: rest => toLowerJS c :: rest

def cleanQuestionTextL (cs : List Char) : List Char :=
  let cleaned := trimJS (collapseWs (stripDotsRun (stripEllipsisRun cs)))
  let cleaned := lowerFirst cleaned
  if 500 < cleaned.length then cleaned.take 500 else cleaned

def cleanQuestionText (s : String) : String :=
  ⟨cleanQuestionTextL s.data⟩

/-! ### Shape invariants of normalized text -/

/-- Every whitespace character is a plain space. -/
def goodWsChar (cs : List Char) : Prop :=
  ∀ c ∈ cs, isWsJS c = true → c = ' '

/-- No two adjacent whitespace characters. -/
def noAdjWs (cs : List Char) : Prop :=
  List.Chain' (fun a b => ¬(isWsJS a = true ∧ isWsJS b = true)) cs

/-! ## `assignCategories` (charts.ts lines 44–139)

Given the percentages of the drawn bar segments (left to right) and the
question's already-parsed mean, pick the best assignment of percentages to the
six response-category slots
`[stronglyDisagree(1), disagree(2), neither(3), agree(4), stronglyAgree(5), dontKnow]`.
JavaScript floating point is modelled by exact rationals. -/

/-- The `combinations(n, k, start)` generator: all ascending `k`-element index
lists drawn from `start .. n-1`, in generation order
(`for (let i = start; i <= n - k; i++) … yield [i, ...rest]`). -/
def combinations (n : ℕ) : ℕ → ℕ → List (List ℕ)
  | 0, _ => [[]]
  | k + 1, start =>
    (List.range' start (n + 1 - (k + 1) - start)).flatMap
      (fun i => (combinations n k (i + 1)).map (fun rest => i :: rest))

/-- `computeMean`: weighted mean over the Likert slots 0–4 (weights 1–5),
`null` when no mass lands on a Likert slot. -/
def computeMean (pcts : List ℚ) (assignment : List ℕ) : Option ℚ :=
  let likert := (assignment.zip pcts).filter (fun q => decide (q.1 < 5))
  let weightedSum := likert.foldl (fun s q => s + q.2 * ((q.1 : ℚ) + 1)) 0
  let total := likert.foldl (fun s q => s + q.2) 0
  if 0 < total then some (weightedSum / total) else none

/-- Total percentage assigned to the don't-know slot (index 5). -/
def dontKnowShare (pcts : List ℚ) (assignment : List ℕ) : ℚ :=
  ((assignment.zip pcts).filter (fun q => q.1 == 5)).foldl (fun s q => s + q.2) 0

/-- Ascending insertion sort (the `sort((a, b) => a - b)` call). -/
def sortedInsert (x : ℕ) : List ℕ → List ℕ
  | [] => [x]
  | y :: ys => if x ≤ y then x :: y :: ys else y :: sortedInsert x ys

def sortAsc (l : List ℕ) : List ℕ :=
  l.foldr sortedInsert []

/-- Number of skipped Likert positions between consecutive occupied slots. -/
def gapCount : List ℕ → ℕ
  | a :: b :: rest => (b - a - 1) + gapCount (b :: rest)
  | _ => 0

/-- `Math.abs`. -/
def absQ (x : ℚ) : ℚ :=
  if x < 0 then -x else x

/-- `Math.max`. -/
def maxQ (x y : ℚ) : ℚ :=
  if x ≤ y then y else x

/-- Score of one candidate assignment: distance of the computed weighted mean
from the actual mean, plus the don't-know penalty (`0.03` per point above a
20 % share) and the contiguity penalty (`0.2` per gap). -/
def scoreOf (pcts : List ℚ) (meanValue : ℚ) (assignment : List ℕ) : Option ℚ :=
  match computeMean pcts assignment with
  | none => none
  | some computed =>
    let diff := absQ (computed - meanValue)
    let dkPenalty := maxQ 0 (dontKnowShare pcts assignment - 20) * (3 / 100)
    let likertSlots := sortAsc (assignment.filter (fun s => decide (s < 5)))
    let gapPenalty := (gapCount likertSlots : ℚ) * (2 / 10)
    some (diff + dkPenalty + gapPenalty)

/-- The brute-force minimisation loop: first candidate with a strictly smaller
score replaces the incumbent (`bestScore` starts at `Infinity`, modelled by
`none`). -/
def chooseBest (pcts : List ℚ) (meanValue : ℚ) (cands : List (List ℕ)) :
    Option (List ℕ) × Option ℚ :=
  cands.foldl
    (fun acc a =>
      match scoreOf pcts meanValue a with
      | none => acc
      | some sc =>
        match acc.2 with
        | none => (some a, some sc)
        | some best => if sc < best then (some a, some sc) else acc)
    (none, none)

/-- `for (i …) slots[bestAssignment[i]] = pcts[i]`. -/
def writeSlots (assignment : List ℕ) (pcts : List ℚ)
    (slots : List (Option ℚ)) : List (Option ℚ) :=
  (assignment.zip pcts).foldl (fun s q => s.set q.1 (some q.2)) slots

def sixNone : List (Option ℚ) := [none, none, none, none, none, none]

def assignCategories (pcts : List ℚ) (meanValue : Option ℚ) : List (Option ℚ) :=
  let N := pcts.length
  if N = 0 then sixNone
  else if 6 ≤ N then
    [pcts[0]?, pcts[1]?, pcts[2]?, pcts[3]?, pcts[4]?, pcts[5]?]
  else
    match meanValue with
    | none =>
      -- fallback heuristic: no mean available
      let sum := pcts.foldl (· + ·) 0
      if sum < 90 ∧ 2 ≤ N then
        -- last value is likely dont_know
        let startSlot : ℤ := 5 - ((N : ℤ) - 1)
        let s1 := (List.range (N - 1)).foldl
          (fun s (i : ℕ) =>
            s.set (max 0 (startSlot + (i : ℤ))).toNat (some (pcts.getD i 0))) sixNone
        s1.set 5 (some (pcts.getD (N - 1) 0))
      else
        -- all Likert: assign to last N slots (most positive)
        let startSlot : ℤ := 5 - (N : ℤ)
        (List.range N).foldl
          (fun s (i : ℕ) =>
            s.set (max 0 (startSlot + (i : ℤ))).toNat (some (pcts.getD i 0))) sixNone
    | some m =>
      match (chooseBest pcts m (combinations 6 N 0)).1 with
      | some best => writeSlots best pcts sixNone
      | none => sixNone

/-! ## `findUnitSheetIds` (xls.ts lines 320–350)

Sheet identifiers encode the hierarchy: `…0000` is a district total, `…00`
(but not `…0000`) a school group, anything else an individual unit.  The JS
`Set` is modelled as the filtered list in insertion order (retention =
membership). -/

def strStartsWith (s pre : String) : Bool :=
  pre.data.isPrefixOf s.data

def strEndsWith (s suf : String) : Bool :=
  suf.data.isSuffixOf s.data

/-- `name.replace(/^T/, "")`: strip one leading `T`. -/
def stripLeadingT (s : String) : String :=
  match s.data with
  | 'T' :: rest => ⟨rest⟩
  | _ => s

/-- The numeric identifiers of the data-table sheets: names starting with
`"T"` but not `"TD"`, minus the table-of-contents sheet. -/
def tIdsOf (sheetNames : List String) : List String :=
  (sheetNames.filter (fun n =>
    strStartsWith n "T" && !strStartsWith n "TD" && !(n == "Innehåll"))).map
    stripLeadingT

/-- `id.slice(0, -2)`: the identifier minus its last two digits. -/
def groupPfx (id : String) : String :=
  ⟨id.data.dropLast.dropLast⟩

/-- Does any *other* unit-level identifier extend this group's prefix? -/
def hasChildren (tIds : List String) (id : String) : Bool :=
  tIds.any (fun other =>
    !(other == id) && strStartsWith other (groupPfx id) && !strEndsWith other "00")

def findUnitSheetIds (sheetNames : List String) : List String :=
  let tIds := tIdsOf sheetNames
  tIds.filter (fun id =>
    !strEndsWith id "0000" &&
    (!strEndsWith id "00" || !hasChildren tIds id))

/-! ## `detectFormat` (tables.ts lines 53–72)

The four fingerprints are case-insensitive regular expressions; they are
matched here on the lowered text (`lowerAll`), with `\b` as a
word/non-word transition over `[A-Za-z0-9_]` and `.` matching anything but a
line break. -/

/-- Substring occurrence. -/
def containsSub (cs pat : List Char) : Bool :=
  match cs with
  | [] => pat.isEmpty
  | _ :: rest => pat.isPrefixOf cs || containsSub rest pat

/-- Try to match at every position of the text. -/
def scanPos (f : List Char → Bool) : List Char → Bool
  | [] => f []
  | c :: rest => f (c :: rest) || scanPos f rest

/-- Greedy `\s+` followed by a literal whose first character is not
whitespace; returns the remainder on success. -/
def wsPlusThen (cs : List Char) (pat : List Char) : Option (List Char) :=
  match cs with
  | c :: r =>
    if isWsJS c then
      let r' := r.dropWhile isWsJS
      if pat.isPrefixOf r' then some (r'.drop pat.length) else none
    else none
  | [] => none

/-- `NKI,?\s+HELHET\b` at the current (lowered) position; the `\b` before
`NKI` is checked by the caller. -/
def nkiHelhetAt (cs : List Char) : Bool :=
  match cs with
  | 'n' :: 'k' :: 'i' :: rest =>
    let rest1 := match rest with
      | ',' :: r => r
      | _ => rest
    match wsPlusThen rest1 "helhet".data with
    | some tail =>
      match tail with
      | [] => true
      | d :: _ => !isWordJS d
    | none => false
  | _ => false

/-- `/\bNKI,?\s+HELHET\b/i`, scanning with the previous character for the
leading word boundary. -/
def scanNkiHelhet : Option Char → List Char → Bool
  | _, [] => false
  | prev, c :: rest =>
    ((match prev with
      | none => true
      | some p => !isWordJS p) && nkiHelhetAt (c :: rest)) ||
    scanNkiHelhet (some c) rest

/-- `Kvalitetsfaktor.*Skalsteg` at the current (lowered) position: the
`.*` may not cross a line break. -/
def kvalSkalstegAt (cs : List Char) : Bool :=
  if "kvalitetsfaktor".data.isPrefixOf cs then
    containsSub
      ((cs.drop "kvalitetsfaktor".data.length).takeWhile
        (fun c => !(c == '\n' || c == '\r')))
      "skalsteg".data
  else false

/-- `Resultat\s+per\s+fråga` at the current (lowered) position. -/
def resultatPerFragaAt (cs : List Char) : Bool :=
  if "resultat".data.isPrefixOf cs then
    match wsPlusThen (cs.drop "resultat".data.length) "per".data with
    | some r2 =>
      match wsPlusThen r2 "fråga".data with
      | some _ => true
      | none => false
    | none => false
  else false

def matchNkiHelhet (text : String) : Bool :=
  scanNkiHelhet none (lowerAll text.data)

def matchKvalSkalsteg (text : String) : Bool :=
  scanPos kvalSkalstegAt (lowerAll text.data)

def matchSjugradig (text : String) : Bool :=
  containsSub (lowerAll text.data) "sjugradig".data

def matchOtillracklig (text : String) : Bool :=
  containsSub (lowerAll text.data) "otillräcklig".data

def matchResultatPerFraga (text : String) : Bool :=
  scanPos resultatPerFragaAt (lowerAll text.data)

inductive PdfFormat
  | scandinfo
  | fivePoint
  | sevenPoint
  | ecers
deriving DecidableEq

/-- `detectFormat`: ordered fingerprint matching, first match wins. -/
def detectFormat (text : String) : PdfFormat :=
  if matchNkiHelhet text || matchKvalSkalsteg text then .scandinfo
  else
    let hasSevenPoint := matchSjugradig text || matchOtillracklig text
    if !hasSevenPoint then .fivePoint
    else if matchResultatPerFraga text then .sevenPoint
    else .ecers

/-! ## 5-point era column layout (tables.ts lines 176–190) -/

/-- `String.prototype.indexOf`: first occurrence index, `-1` when absent. -/
def jsIndexOfAux (pat : List Char) : List Char → ℕ → Option ℕ
  | [], i => if pat.isEmpty then some i else none
  | c :: rest, i =>
    if pat.isPrefixOf (c :: rest) then some i else jsIndexOfAux pat rest (i + 1)

def jsIndexOf (s pat : String) : ℤ :=
  match jsIndexOfAux pat.data s.data 0 with
  | some i => (i : ℤ)
  | none => -1

/-- `Math.max` on JS integers. -/
def maxI (x y : ℤ) : ℤ :=
  if x ≤ y then y else x

inductive ColumnLayout5Point
  | grFirst
  | grLast
deriving DecidableEq

/-- gr-first: `GR, Göteborg, District, School, [historical…]`;
gr-last: `[School historical…], District, Göteborg, GR`. -/
def detectColumnLayout5Point (headerLine : String) : ColumnLayout5Point :=
  let grIdx := jsIndexOf headerLine "GR"
  let goIdx := maxI (jsIndexOf headerLine "Göteborg") (jsIndexOf headerLine "Goteborg")
  if 0 ≤ grIdx ∧ 0 ≤ goIdx then
    if grIdx < goIdx then .grFirst else .grLast
  else .grFirst

/-! ## Value slicing of a 5-point data row (tables.ts lines 306–352)

`values` is the row's token list (numeric token = `some v`, dash = `none`);
the historical-means object is an association list in insertion order. -/

structure SlicedRow where
  meanGr : Option ℚ
  meanGoteborg : Option ℚ
  meanDistrict : Option ℚ
  meanSchool : Option ℚ
  historicalMeans : List (ℕ × Option ℚ)
deriving DecidableEq, Repr

/-- `values[k]` at a JS index that may be negative or out of range, with the
stored `null`s flattened away. -/
def atIdx (values : List (Option ℚ)) (k : ℤ) : Option ℚ :=
  if k < 0 then none else (values[k.toNat]?).join

def sliceValues5Point (layout : ColumnLayout5Point) (historicalYears : List ℕ)
    (values : List (Option ℚ)) : SlicedRow :=
  let numHist := historicalYears.length
  match layout with
  | .grFirst =>
    -- geographic columns at the start, historical years at the end
    let histStart : ℤ := (values.length : ℤ) - numHist
    { meanGr := (values[0]?).join
      meanGoteborg := if 2 ≤ values.length then (values[1]?).join else none
      meanDistrict := if 3 ≤ values.length then (values[2]?).join else none
      meanSchool := if 4 ≤ values.length then (values[3]?).join else none
      historicalMeans := (List.range numHist).map
        (fun j => (historicalYears.getD j 0, atIdx values (histStart + j))) }
  | .grLast =>
    -- geographic columns at the end (last 3), historical/school at the start
    let len := values.length
    let meanGr := if 1 ≤ len then atIdx values ((len : ℤ) - 1) else none
    let meanGoteborg := if 2 ≤ len then atIdx values ((len : ℤ) - 2) else none
    let meanDistrict := if 3 ≤ len then atIdx values ((len : ℤ) - 3) else none
    let beforeGeo := values.take (len - 3)
    if numHist < beforeGeo.length then
      -- extra value(s) beyond historical years: school-level aggregate last
      { meanGr := meanGr
        meanGoteborg := meanGoteborg
        meanDistrict := meanDistrict
        meanSchool := (beforeGeo[beforeGeo.length - 1]?).join
        historicalMeans := (List.range (min (beforeGeo.length - 1) numHist)).map
          (fun j => (historicalYears.getD j 0, (beforeGeo.dropLast[j]?).join)) }
    else
      -- no school aggregate: unit values map directly to historical years
      { meanGr := meanGr
        meanGoteborg := meanGoteborg
        meanDistrict := meanDistrict
        meanSchool := if 1 ≤ beforeGeo.length then (beforeGeo[0]?).join else none
        historicalMeans := (List.range (min beforeGeo.length numHist)).map
          (fun j => (historicalYears.getD j 0, (beforeGeo[j]?).join)) }

/-- A row is non-empty when one of the four comparison values or one
historical value is non-null. -/
def rowHasValue (r : SlicedRow) : Bool :=
  r.meanGr.isSome || r.meanGoteborg.isSome || r.meanDistrict.isSome ||
  r.meanSchool.isSome || r.historicalMeans.any (fun e => e.2.isSome)

/-! ## `parseMeanRows5Point` (tables.ts lines 192–398)

A line-oriented state machine over the layout text.  Lines are the result of
`text.split("\n")`; the `for` loop with look-ahead mutation of `i` is
realised as fuel-indexed recursion (the fuel `lines.length + 1` is an upper
bound on the number of iterations since `i` strictly increases). -/

def splitLinesAux (acc : List Char) : List Char → List (List Char)
  | [] => [acc.reverse]
  | c :: rest =>
    if c == '\n' then acc.reverse :: splitLinesAux [] rest
    else splitLinesAux (c :: acc) rest

/-- `text.split("\n")`. -/
def splitLines (cs : List Char) : List (List Char) :=
  splitLinesAux [] cs

/-- `/^[A-ZÅÄÖ]/`. -/
def isUpperSwede (c : Char) : Bool :=
  ('A' ≤ c && c ≤ 'Z') || c == 'Å' || c == 'Ä' || c == 'Ö'

/-- `/^[a-zåäö]/`. -/
def isLowerSwede (c : Char) : Bool :=
  ('a' ≤ c && c ≤ 'z') || c == 'å' || c == 'ä' || c == 'ö'

/-- A `\b(20\d{2})\b` match at the current position. -/
def yearAt (prev : Option Char) (cs : List Char) : Option ℕ :=
  match cs with
  | '2' :: '0' :: d1 :: d2 :: rest =>
    if (match prev with | none => true | some p => !isWordJS p) &&
        isDigitJS d1 && isDigitJS d2 &&
        (match rest with | [] => true | e :: _ => !isWordJS e) then
      some (2000 + 10 * (d1.toNat - 48) + (d2.toNat - 48))
    else none
  | _ => none

/-- All `\b(20\d{2})\b/g` matches, left to right, non-overlapping. -/
def scanYears : Option Char → List Char → List ℕ
  | _, [] => []
  | prev, c :: rest =>
    match yearAt prev (c :: rest) with
    | some y =>
      match rest with
      | _ :: _ :: d3 :: rest' => y :: scanYears (some d3) rest'
      | _ => [y]
    | none => scanYears (some c) rest

/-- One alternative of `numberOrDashRe` at the current position. -/
inductive Tok
  | num (q : ℚ)
  | dash
  | nothing

/-- `(\d[.,]\d{2})\b` at the current position. -/
def numTokenAt (cs : List Char) : Option ℚ :=
  match cs with
  | d :: s :: a :: b :: rest =>
    if isDigitJS d && (s == '.' || s == ',') && isDigitJS a && isDigitJS b &&
        (match rest with | [] => true | e :: _ => !isWordJS e) then
      some (((d.toNat - 48 : ℕ) : ℚ) +
        (((10 * (a.toNat - 48) + (b.toNat - 48) : ℕ) : ℚ) / 100))
    else none
  | _ => none

/-- `-(?=\s{2,}|\s*$)`: a dash whose lookahead is two whitespace characters
or only whitespace to the end of the line. -/
def dashLookahead (rest : List Char) : Bool :=
  rest.all isWsJS ||
  (match rest with
   | c1 :: c2 :: _ => isWsJS c1 && isWsJS c2
   | _ => false)

def tokenAt (cs : List Char) : Tok :=
  match numTokenAt cs with
  | some q => .num q
  | none =>
    match cs with
    | '-' :: rest => if dashLookahead rest then .dash else .nothing
    | _ => .nothing

/-- The `numberOrDashRe` global scan: `(index, value)` per match, `none`
standing for a dash. -/
def scanTokens : List Char → ℕ → List (ℕ × Option ℚ)
  | [], _ => []
  | c :: rest, i =>
    match tokenAt (c :: rest) with
    | .num q =>
      match rest with
      | _ :: _ :: _ :: rest' => (i, some q) :: scanTokens rest' (i + 4)
      | _ => [(i, some q)]
    | .dash => (i, none) :: scanTokens rest (i + 1)
    | .nothing => scanTokens rest (i + 1)

/-- `/\|.*[Ss]varsfrekvens/`. -/
def pageHeaderLine : List Char → Bool
  | [] => false
  | c :: rest =>
    (c == '|' && (containsSub rest "Svarsfrekvens".data ||
                  containsSub rest "svarsfrekvens".data)) ||
    pageHeaderLine rest

def QUESTION_AREA_PATTERNS_5POINT : List String :=
  ["Normer och värden", "Värdegrund och uppdrag",
   "Omsorg, utveckling och lärande", "Barns inflytande och delaktighet",
   "Förskola och hem", "Helhetsomdöme"]

/-- `mapAreaName` (tables.ts lines 159–172). -/
def mapAreaName (name : String) : String :=
  let lower := lowerAll name.data
  if containsSub lower "normer".data || containsSub lower "trivsel".data ||
      containsSub lower "trygghet".data || containsSub lower "gemenskap".data then
    "Trygghet och trivsel"
  else if containsSub lower "värdegrund".data || containsSub lower "uppdrag".data then
    "Utveckling och lärande"
  else if containsSub lower "omsorg".data || containsSub lower "utveckling".data ||
      containsSub lower "lärande".data then
    "Utveckling och lärande"
  else if containsSub lower "inflytande".data || containsSub lower "delaktighet".data then
    "Inflytande"
  else if containsSub lower "information".data then "Inflytande"
  else if containsSub lower "förskola och hem".data ||
      containsSub lower "relation".data || containsSub lower "kommunikation".data then
    "Relation och kommunikation"
  else if containsSub lower "helhets".data || containsSub lower "helhetsomdöme".data then
    "Helhetsomdöme"
  else if containsSub lower "förutsättningar".data then "Utveckling och lärande"
  else if containsSub lower "pedagogik".data then "Utveckling och lärande"
  else if containsSub lower "kontinuitet".data then "Relation och kommunikation"
  else name

/-- `\bGR\b` at the current position (caller supplies the previous char). -/
def grWordAt (prev : Option Char) (cs : List Char) : Bool :=
  match cs with
  | 'G' :: 'R' :: rest =>
    (match prev with | none => true | some p => !isWordJS p) &&
    (match rest with | [] => true | e :: _ => !isWordJS e)
  | _ => false

def scanGrWord : Option Char → List Char → Bool
  | _, [] => false
  | prev, c :: rest => grWordAt prev (c :: rest) || scanGrWord (some c) rest

/-- `/G.teborg/` at the current position (the `.` may not cross a newline,
which cannot occur inside a split line anyway). -/
def gTeborgAt (cs : List Char) : Bool :=
  match cs with
  | 'G' :: x :: rest =>
    !(x == '\n' || x == '\r') && "teborg".data.isPrefixOf rest
  | _ => false

def hasGTeborg (cs : List Char) : Bool :=
  scanPos gTeborgAt cs

/-- `trimmed.split(/\s{2,}/)`: split on maximal whitespace runs of length at
least two.  The Bool flag records whether we are inside a separator run
(the preceding token already emitted). -/
def splitWsGo : List Char → Bool → List Char → List (List Char)
  | acc, false, [] => [acc.reverse]
  | _, true, [] => [[]]
  | acc, false, c :: rest =>
    if isWsJS c then
      match rest with
      | d :: rest' =>
        if isWsJS d then acc.reverse :: splitWsGo [] true rest'
        else splitWsGo (d :: c :: acc) false rest'
      | [] => [(c :: acc).reverse]
    else splitWsGo (c :: acc) false rest
  | acc, true, c :: rest =>
    if isWsJS c then splitWsGo acc true rest
    else splitWsGo [c] false rest

def splitWs2 (cs : List Char) : List (List Char) :=
  splitWsGo [] false cs

/-- Case-insensitive anchored prefix test (`pat` given in lowercase). -/
def startsWithCi (cs : List Char) (pat : String) : Bool :=
  pat.data.isPrefixOf (lowerAll cs)

/-- `/Könsuppdelad\s+andel/i`. -/
def konsAndelAt (cs : List Char) : Bool :=
  if "könsuppdelad".data.isPrefixOf cs then
    (wsPlusThen (cs.drop "könsuppdelad".data.length) "andel".data).isSome
  else false

def matchKonsAndel (cs : List Char) : Bool :=
  scanPos konsAndelAt (lowerAll cs)

/-- `/Frågeområde\s+per\s+enhet/i`. -/
def frageomradeEnhetAt (cs : List Char) : Bool :=
  if "frågeområde".data.isPrefixOf cs then
    match wsPlusThen (cs.drop "frågeområde".data.length) "per".data with
    | some r2 => (wsPlusThen r2 "enhet".data).isSome
    | none => false
  else false

def matchFrageomradeEnhet (cs : List Char) : Bool :=
  scanPos frageomradeEnhetAt (lowerAll cs)

structure MeanRow where
  questionText : String
  questionArea : String
  meanGr : Option ℚ
  meanGoteborg : Option ℚ
  meanDistrict : Option ℚ
  meanSchool : Option ℚ
  historicalMeans : List (ℕ × Option ℚ)
deriving DecidableEq, Repr

/-- First line (of this one and the next `n-1`) holding at least `lo` year
matches, returning those matches. -/
def findYearsGe (lo : ℕ) : List (List Char) → Option (List ℕ)
  | [] => none
  | l :: rest =>
    let ys := scanYears none l
    if lo ≤ ys.length then some ys else findYearsGe lo rest

/-- The initial scan for historical years (tables.ts lines 200–214). -/
def preScanYears : List (List Char) → List ℕ
  | [] => []
  | l :: rest =>
    if containsSub l "GR".data &&
        (containsSub l "Göteborg".data || containsSub l "Goteborg".data) then
      match findYearsGe 2 (l :: rest.take 2) with
      | some ys => ys
      | none => preScanYears rest
    else preScanYears rest

structure Parse5State where
  rows : List MeanRow
  currentArea : String
  historicalYears : List ℕ
  columnLayout : ColumnLayout5Point
  inTable : Bool
  pendingQuestionText : List Char
  doneWithTables : Bool

/-- The look-ahead loop consuming wrapped-question continuation lines
(tables.ts lines 364–380); returns the updated question text and loop index. -/
def lookAheadLoop (lines : List (List Char)) :
    ℕ → ℕ → List Char → ℕ → List Char × ℕ
  | 0, _, qt, i => (qt, i)
  | fuel + 1, lookAhead, qt, i =>
    if lookAhead < lines.length then
      match trimJS (lines.getD lookAhead []) with
      | [] => lookAheadLoop lines fuel (lookAhead + 1) qt i
      | c :: la' =>
        if 3 ≤ (c :: la').length && (c :: la').length < 60 &&
            !(c :: la').any isDigitJS && isLowerSwede c then
          lookAheadLoop lines fuel (lookAhead + 1)
            (cleanQuestionTextL (qt ++ ' ' :: c :: la')) lookAhead
        else (qt, i)
    else (qt, i)

/-- One pass of the `for` loop of `parseMeanRows5Point`, with `i` strictly
increasing and recursion on fuel. -/
def parse5Go (lines : List (List Char)) : ℕ → ℕ → Parse5State → Parse5State
  | 0, _, st => st
  | fuel + 1, i, st =>
    if i < lines.length then
      let line := lines.getD i []
      let trimmed := trimJS line
      let st :=
        if st.rows.length ≠ 0 &&
            (matchKonsAndel trimmed || matchFrageomradeEnhet trimmed) then
          { st with doneWithTables := true }
        else st
      if st.doneWithTables then parse5Go lines fuel (i + 1) st
      else if pageHeaderLine trimmed then
        parse5Go lines fuel (i + 1)
          { st with inTable := false, pendingQuestionText := [] }
      else
        -- area headers are detected regardless of table state
        let st :=
          match QUESTION_AREA_PATTERNS_5POINT.find? (fun a =>
              trimmed == a.data || (a.data ++ [' ']).isPrefixOf trimmed) with
          | some a =>
            { st with currentArea := mapAreaName a, inTable := false,
                      pendingQuestionText := [] }
          | none => st
        if scanGrWord none line && hasGTeborg line &&
            (2 ≤ (splitWs2 trimmed).length &&
              (splitWs2 trimmed).any (fun w => trimJS w == "GR".data)) then
          let newYears :=
            match findYearsGe 1 (line :: ((lines.drop (i + 1)).take 2)) with
            | some ys => ys
            | none => st.historicalYears
          parse5Go lines fuel (i + 1)
            { st with inTable := true, pendingQuestionText := [],
                      columnLayout := detectColumnLayout5Point ⟨line⟩,
                      historicalYears := newYears }
        else if st.inTable && "Årsjämförelsen".data.isPrefixOf trimmed then
          parse5Go lines fuel (i + 1)
            { st with inTable := false, pendingQuestionText := [] }
        else if !st.inTable then parse5Go lines fuel (i + 1) st
        else if trimmed.isEmpty then parse5Go lines fuel (i + 1) st
        else
          let toks := scanTokens line 0
          let values := toks.map Prod.snd
          let numericCount := (values.filter Option.isSome).length
          if 3 ≤ numericCount then
            let fIdx := (toks.headD (0, none)).1
            let questionText := trimJS (line.take fIdx)
            let questionText :=
              if st.pendingQuestionText ≠ [] then
                if 3 < questionText.length then
                  st.pendingQuestionText ++ ' ' :: questionText
                else st.pendingQuestionText
              else questionText
            let questionText := cleanQuestionTextL questionText
            if 5 < questionText.length then
              let sliced := sliceValues5Point st.columnLayout st.historicalYears values
              let (qt, i') := lookAheadLoop lines (lines.length - (i + 1))
                (i + 1) questionText i
              let row : MeanRow :=
                { questionText := ⟨qt⟩, questionArea := st.currentArea,
                  meanGr := sliced.meanGr, meanGoteborg := sliced.meanGoteborg,
                  meanDistrict := sliced.meanDistrict,
                  meanSchool := sliced.meanSchool,
                  historicalMeans := sliced.historicalMeans }
              parse5Go lines fuel (i' + 1)
                { st with rows := st.rows ++ [row], pendingQuestionText := [] }
            else
              parse5Go lines fuel (i + 1) { st with pendingQuestionText := [] }
          else if trimmed.head? == some '…' || "...".data.isPrefixOf trimmed then
            parse5Go lines fuel (i + 1) { st with pendingQuestionText := trimmed }
          else if st.inTable && numericCount == 0 && 10 < trimmed.length &&
              (match trimmed.head? with
               | some c => isUpperSwede c
               | none => false) &&
              !(QUESTION_AREA_PATTERNS_5POINT.any (fun a =>
                  trimmed == a.data || a.data.isPrefixOf trimmed)) &&
              !(startsWithCi trimmed "resultat" || startsWithCi trimmed "jämförelse" ||
                startsWithCi trimmed "årsjämförelse" ||
                startsWithCi trimmed "könsuppdelad" ||
                startsWithCi trimmed "frågeområde") then
            parse5Go lines fuel (i + 1) { st with pendingQuestionText := trimmed }
          else if st.pendingQuestionText ≠ [] && 0 < trimmed.length &&
              numericCount == 0 then
            parse5Go lines fuel (i + 1)
              { st with pendingQuestionText :=
                  st.pendingQuestionText ++ ' ' :: trimmed }
          else parse5Go lines fuel (i + 1) st
    else st

def parseMeanRows5Point (text : String) : List MeanRow × List ℕ :=
  let lines := splitLines text.data
  let initYears := preScanYears lines
  let st := parse5Go lines (lines.length + 1) 0
    { rows := [], currentArea := "", historicalYears := initYears,
      columnLayout := .grFirst, inTable := false, pendingQuestionText := [],
      doneWithTables := false }
  (st.rows, st.historicalYears)

/-- Non-emptiness of an emitted mean row. -/
def meanRowHasValue (r : MeanRow) : Bool :=
  r.meanGr.isSome || r.meanGoteborg.isSome || r.meanDistrict.isSome ||
  r.meanSchool.isSome || r.historicalMeans.any (fun e => e.2.isSome)

/-! ## `parseDemographics` (charts.ts lines 447–537)

A fold over the lines of the layout text; the three distributions are
JavaScript objects, modelled as association lists with assign-in-place
update semantics. -/

/-- `trimmed.startsWith("…") || startsWith("...")` (charts.ts line 163;
`"\u2026"` and `"…"` are the same character). -/
def startsWithEllipsis (trimmed : List Char) : Bool :=
  trimmed.head? == some '…' || "...".data.isPrefixOf trimmed

/-- `obj[key] = value` on a JavaScript object: overwrite in place if the key
exists, else append. -/
def setKV (m : List (List Char × ℕ)) (k : List Char) (v : ℕ) :
    List (List Char × ℕ) :=
  if m.any (fun p => p.1 == k) then
    m.map (fun p => if p.1 == k then (k, v) else p)
  else m ++ [(k, v)]

/-- `\s{2,}(\d+)\s*%` at the current position (the tail of `kvMatch`after
the lazy group); the greedy quantifiers need no backtracking here because
whitespace, digits and `%` are disjoint character classes. -/
def kvTail (cs : List Char) : Option ℕ :=
  match cs with
  | c1 :: c2 :: rest =>
    if isWsJS c1 && isWsJS c2 then
      let afterWs := rest.dropWhile isWsJS
      let digits := afterWs.takeWhile isDigitJS
      let afterDigits := afterWs.dropWhile isDigitJS
      if digits.isEmpty then none
      else
        match afterDigits.dropWhile isWsJS with
        | '%' :: _ => some (digits.foldl (fun a c => 10 * a + (c.toNat - 48)) 0)
        | _ => none
    else none
  | _ => none

/-- The lazy group `(.+?)`: grow the key one character at a time and take
the shortest key whose tail matches. -/
def kvFromBody : List Char → List Char → Option (List Char × ℕ)
  | _, [] => none
  | keyRev, c :: rest =>
    match kvTail rest with
    | some v => some ((c :: keyRev).reverse, v)
    | none => kvFromBody (c :: keyRev) rest

/-- Backtracking of the greedy `^\s*`: try the maximal run first, then give
back one whitespace character at a time. -/
def kvOuter : ℕ → List Char → Option (List Char × ℕ)
  | 0, cs => kvFromBody [] cs
  | n + 1, cs =>
    match kvFromBody [] (cs.drop (n + 1)) with
    | some r => some r
    | none => kvOuter n cs

/-- `line.match(/^\s*(.+?)\s{2,}(\d+)\s*%/)`: the raw first group and the
parsed integer second group. -/
def kvMatchL (cs : List Char) : Option (List Char × ℕ) :=
  kvOuter (cs.takeWhile isWsJS).length cs

/-- `/^\d{4}$/`. -/
def isYear4 (key : List Char) : Bool :=
  key.length == 4 && key.all isDigitJS

/-- A JavaScript `.` wildcard: any character but a line terminator. -/
def dotJS (c : Char) : Bool :=
  !(c == '\n' || c == '\r' || c == '\u2028' || c == '\u2029')

/-- `non.bin` (case already lowered). -/
def nonBinPrefix (l : List Char) : Bool :=
  match l with
  | 'n' :: 'o' :: 'n' :: x :: rest => dotJS x && "bin".data.isPrefixOf rest
  | _ => false

/-- `/^(flicka|pojke|annat|annan|ej bin|non.bin)/i`. -/
def validChildKey (key : List Char) : Bool :=
  let l := lowerAll key
  "flicka".data.isPrefixOf l || "pojke".data.isPrefixOf l ||
  "annat".data.isPrefixOf l || "annan".data.isPrefixOf l ||
  "ej bin".data.isPrefixOf l || nonBinPrefix l

/-- `/^(kvinna|man|annat|annan|ej bin|non.bin)/i`. -/
def validParentKey (key : List Char) : Bool :=
  let l := lowerAll key
  "kvinna".data.isPrefixOf l || "man".data.isPrefixOf l ||
  "annat".data.isPrefixOf l || "annan".data.isPrefixOf l ||
  "ej bin".data.isPrefixOf l || nonBinPrefix l

/-- `/H.gst andel/i` at the current position, over the lowered text. -/
def hogstAndelAt (cs : List Char) : Bool :=
  match cs with
  | 'h' :: x :: rest => dotJS x && "gst andel".data.isPrefixOf rest
  | _ => false

/-- `/K.nsuppdelad/i` at the current position, over the lowered text. -/
def konsuppdeladAt (cs : List Char) : Bool :=
  match cs with
  | 'k' :: x :: rest => dotJS x && "nsuppdelad".data.isPrefixOf rest
  | _ => false

/-- The chart-marker / section-header tests of charts.ts lines 490–497
applied to a trimmed line. -/
def demoTerminator (trimmedDemo : List Char) : Bool :=
  let lower := lowerAll trimmedDemo
  startsWithEllipsis trimmedDemo ||
  containsSub lower "svarsfrekvens".data ||
  containsSub lower "normer och v".data ||
  scanPos hogstAndelAt lower ||
  scanPos konsuppdeladAt lower ||
  containsSub lower "detta diagram".data ||
  containsSub lower "resultat per fr".data ||
  containsSub lower "viktigaste".data

/-- The birth-year section header test (charts.ts line 467). -/
def birthHeader (line : List Char) : Bool :=
  let lower := lowerAll line
  containsSub lower "födelseår".data || containsSub lower "fodelsear".data ||
  containsSub lower "barnets födelseår".data

/-- The child-gender section header test (charts.ts line 473). -/
def childHeader (line : List Char) : Bool :=
  let lower := lowerAll line
  containsSub lower "barnets kön".data || containsSub lower "barnets kon".data

/-- The respondent-gender section header test (charts.ts line 479). -/
def parentHeader (line : List Char) : Bool :=
  let lower := lowerAll line
  containsSub lower "svarandens kön".data ||
  containsSub lower "svarandens kon".data ||
  containsSub lower "vårdnadshavarens kön".data

structure Demographics where
  birthYearDistribution : List (List Char × ℕ)
  childGenderDistribution : List (List Char × ℕ)
  parentGenderDistribution : List (List Char × ℕ)
deriving DecidableEq, Repr

structure DemoState where
  demo : Demographics
  inBirthYear : Bool
  inChildGender : Bool
  inParentGender : Bool
deriving DecidableEq, Repr

def addBirth (st : DemoState) (k : List Char) (v : ℕ) : DemoState :=
  { st with demo :=
      { st.demo with birthYearDistribution :=
          (setKV st.demo.birthYearDistribution k v) } }

def addChild (st : DemoState) (k : List Char) (v : ℕ) : DemoState :=
  { st with demo :=
      { st.demo with childGenderDistribution :=
          (setKV st.demo.childGenderDistribution k v) } }

def addParent (st : DemoState) (k : List Char) (v : ℕ) : DemoState :=
  { st with demo :=
      { st.demo with parentGenderDistribution :=
          (setKV st.demo.parentGenderDistribution k v) } }

/-- One iteration of the `for` loop of `parseDemographics`. -/
def demoStep (st : DemoState) (line : List Char) : DemoState :=
  if birthHeader line then
    { st with inBirthYear := true, inChildGender := false,
              inParentGender := false }
  else if childHeader line then
    { st with inBirthYear := false, inChildGender := true,
              inParentGender := false }
  else if parentHeader line then
    { st with inBirthYear := false, inChildGender := false,
              inParentGender := true }
  else if !(trimJS line).isEmpty &&
      (st.inBirthYear || st.inChildGender || st.inParentGender) &&
      demoTerminator (trimJS line) then
    { st with inBirthYear := false, inChildGender := false,
              inParentGender := false }
  else if (trimJS line).isEmpty then st
  else
    match kvMatchL line with
    | some (rawKey, v) =>
      if st.inBirthYear && isYear4 (trimJS rawKey) then
        addBirth st (trimJS rawKey) v
      else if st.inChildGender then
        if validChildKey (trimJS rawKey) then addChild st (trimJS rawKey) v
        else { st with inChildGender := false }
      else if st.inParentGender then
        if validParentKey (trimJS rawKey) then addParent st (trimJS rawKey) v
        else { st with inParentGender := false }
      else st
    | none => st

def demoInit : DemoState :=
  { demo := { birthYearDistribution := [], childGenderDistribution := [],
              parentGenderDistribution := [] },
    inBirthYear := false, inChildGender := false, inParentGender := false }

def parseDemographics (layoutText : String) : Demographics :=
  ((splitLines layoutText.data).foldl demoStep demoInit).demo

/-! ## `parseResponseDistributions` (charts.ts lines 176–288)

The stacked-bar chart parser.  The means map is an insertion-ordered
association list (a JavaScript `Map<string, number>`); `seen` is the
deduplication set. -/

/-- `isLegendLine` (charts.ts lines 146–157). -/
def isLegendLine (line : List Char) : Bool :=
  let stripped := lowerAll (line.filter (fun c => !isWsJS c))
  (containsSub stripped "instämmer".data ||
   containsSub stripped "instammer".data ||
   containsSub stripped "instämmerintealls".data ||
   containsSub stripped "instammerintealls".data) &&
  (containsSub stripped "vetinte".data || containsSub stripped "vetej".data) &&
  (containsSub stripped "varkeneller".data || containsSub stripped "varken".data)

/-- `/^Resultat per fr.ga$/i`: anchored at both ends, over the lowered
trimmed line. -/
def resultatPerFragaExact (t : List Char) : Bool :=
  let l := lowerAll t
  "resultat per fr".data.isPrefixOf l &&
  (match l.drop 15 with
   | x :: rest => dotJS x && rest == "ga".data
   | [] => false)

/-- The stacked-bar section start test (charts.ts lines 194–197). -/
def sectionStart (trimmed : List Char) : Bool :=
  (containsSub trimmed "Detta diagram visar resultatet f".data &&
   containsSub trimmed "r fr".data && containsSub trimmed "gorna".data) ||
  resultatPerFragaExact trimmed

/-- `/Viktigaste\s+fr/i` at the current position, over the lowered text. -/
def viktigasteFrAt (cs : List Char) : Bool :=
  if "viktigaste".data.isPrefixOf cs then
    (wsPlusThen (cs.drop 10) "fr".data).isSome
  else false

/-- The section terminator test (charts.ts lines 209–212). -/
def prdTerminator (trimmed : List Char) : Bool :=
  scanPos konsuppdeladAt (lowerAll trimmed) ||
  scanPos viktigasteFrAt (lowerAll trimmed) ||
  scanPos hogstAndelAt (lowerAll trimmed)

/-- A `\d+%` match at the current position (the greedy digit run must be
immediately followed by `%`). -/
def pctAt (cs : List Char) : Bool :=
  !(cs.takeWhile isDigitJS).isEmpty &&
  (cs.dropWhile isDigitJS).head? == some '%'

/-- `trimmed.replace(/\d+%.*/, "")`: everything from the first `\d+%` match
to the end of the line is removed. -/
def stripPctTail : List Char → List Char
  | [] => []
  | c :: rest => if pctAt (c :: rest) then [] else c :: stripPctTail rest

def natOfDigits (ds : List Char) : ℕ :=
  ds.foldl (fun a c => 10 * a + (c.toNat - 48)) 0

/-- `l.match(/\d+%/g)` followed by `parsePct` on each match: the values of
the maximal digit runs immediately followed by `%`, left to right.  The
first argument accumulates the current digit run, reversed. -/
def scanPctsGo : List Char → List Char → List ℕ
  | _, [] => []
  | runRev, c :: rest =>
    if isDigitJS c then scanPctsGo (c :: runRev) rest
    else if c == '%' && !runRev.isEmpty then
      natOfDigits runRev.reverse :: scanPctsGo [] rest
    else scanPctsGo [] rest

def scanPcts (cs : List Char) : List ℕ :=
  scanPctsGo [] cs

/-- `l.replace(/\d+%/g, "")`: every digit run immediately followed by `%`
is removed, together with the `%`. -/
def stripPctsGo : List Char → List Char → List Char
  | runRev, [] => runRev.reverse
  | runRev, c :: rest =>
    if isDigitJS c then stripPctsGo (c :: runRev) rest
    else if c == '%' && !runRev.isEmpty then stripPctsGo [] rest
    else runRev.reverse ++ c :: stripPctsGo [] rest

def stripPcts (cs : List Char) : List Char :=
  stripPctsGo [] cs

/-- The inner `for j` loop of charts.ts lines 232–252, collecting a
question's percentages, text and last consumed line over at most four lines
(`fuel` starts at 4). -/
def collectGo (lines : List (List Char)) (i : ℕ) :
    ℕ → ℕ → List ℚ × List Char × ℕ → List ℚ × List Char × ℕ
  | 0, _, acc => acc
  | fuel + 1, j, (pcts, qt, lastLine) =>
    if j < min (i + 4) lines.length then
      let l := trimJS (lines.getD j [])
      if decide (i < j) && (startsWithEllipsis l || l.isEmpty ||
          (decide (15 ≤ (trimJS (stripPctTail l)).length) && scanPos pctAt l)) then
        (pcts, qt, lastLine)
      else
        let newPcts := pcts ++ (scanPcts l).map (fun n => (n : ℚ))
        let textPart := trimJS (stripPcts l)
        let newQt :=
          if 3 < textPart.length then
            (if qt.isEmpty then textPart else qt ++ ' ' :: textPart)
          else qt
        collectGo lines i fuel (j + 1) (newPcts, newQt, j)
    else (pcts, qt, lastLine)

/-- The fuzzy mean lookup of charts.ts lines 260–268: exact key first, then
the first entry whose key is a prefix of the question text or vice versa. -/
def lookupMean (meansMap : List (List Char × ℚ)) (qt : List Char) :
    Option ℚ :=
  match meansMap.find? (fun p => p.1 == qt) with
  | some p => some p.2
  | none =>
    (meansMap.find? (fun p => p.1.isPrefixOf qt || qt.isPrefixOf p.1)).map
      Prod.snd

structure ResponseDistribution where
  questionText : List Char
  pctStronglyDisagree : Option ℚ
  pctDisagree : Option ℚ
  pctNeither : Option ℚ
  pctAgree : Option ℚ
  pctStronglyAgree : Option ℚ
  pctDontKnow : Option ℚ
deriving DecidableEq, Repr

structure PRDState where
  results : List ResponseDistribution
  seen : List (List Char)
  inStackedBarSection : Bool

/-- Appending an accepted question: `seen.add` plus `results.push`. -/
def prdEmit (st : PRDState) (r : ResponseDistribution) : PRDState :=
  { results := st.results ++ [r], seen := st.seen ++ [r.questionText],
    inStackedBarSection := st.inStackedBarSection }

/-- One pass of the `for` loop of `parseResponseDistributions`, with `i`
strictly increasing and recursion on fuel. -/
def prdGo (lines : List (List Char)) (mm : List (List Char × ℚ)) :
    ℕ → ℕ → PRDState → PRDState
  | 0, _, st => st
  | fuel + 1, i, st =>
    if i < lines.length then
      let trimmed := trimJS (lines.getD i [])
      if sectionStart trimmed then
        prdGo lines mm fuel (i + 1) { st with inStackedBarSection := true }
      else if st.inStackedBarSection && isLegendLine (lines.getD i []) then
        prdGo lines mm fuel (i + 1) { st with inStackedBarSection := false }
      else if st.inStackedBarSection && prdTerminator trimmed then
        prdGo lines mm fuel (i + 1) { st with inStackedBarSection := false }
      else if !st.inStackedBarSection then prdGo lines mm fuel (i + 1) st
      else if !startsWithEllipsis trimmed &&
          (decide ((trimJS (stripPctTail trimmed)).length < 15) ||
            !scanPos pctAt trimmed) then
        prdGo lines mm fuel (i + 1) st
      else
        match collectGo lines i 4 i ([], [], i) with
        | (allPcts, qtRaw, lastLine) =>
          let questionText := cleanQuestionTextL qtRaw
          if decide (2 ≤ allPcts.length) && decide (10 < questionText.length) &&
              !(st.seen.any (fun s => s == questionText)) then
            let slots := assignCategories allPcts (lookupMean mm questionText)
            prdGo lines mm fuel (lastLine + 1) (prdEmit st
              { questionText := questionText,
                pctStronglyDisagree := (slots.getD 0 none),
                pctDisagree := (slots.getD 1 none),
                pctNeither := (slots.getD 2 none),
                pctAgree := (slots.getD 3 none),
                pctStronglyAgree := (slots.getD 4 none),
                pctDontKnow := (slots.getD 5 none) })
          else prdGo lines mm fuel (lastLine + 1) st
    else st

def parseResponseDistributions (layoutText : String)
    (mm : List (List Char × ℚ)) : List ResponseDistribution :=
  (prdGo (splitLines layoutText.data) mm
    ((splitLines layoutText.data).length + 1) 0
    { results := [], seen := [], inStackedBarSection := false }).results

end Forskole

/- Batteries marks rational arithmetic `@[irreducible]`, which prevents
`decide` from evaluating concrete rational expressions; restore the default
reducibility for the rest of this file. -/
attribute [local semireducible] Rat.mul Rat.add Rat.sub Rat.inv Rat.ofScientific

namespace Forskole

/-! ## Lemmas about `cleanQuestionText` -/

theorem toLowerJS_fix (c : Char) : toLowerJS (toLowerJS c) = toLowerJS c := by
  cases hf : lowerPairs.find? (fun p => p.1 == c) with
  | none =>
    have h1 : toLowerJS c = c := by unfold toLowerJS; rw [hf]
    rw [h1, h1]
  | some p =>
    have hp : p ∈ lowerPairs := List.mem_of_find?_eq_some hf
    have h1 : toLowerJS c = p.2 := by unfold toLowerJS; rw [hf]
    rw [h1]
    fin_cases hp <;> decide

theorem isWsJS_toLowerJS (c : Char) : isWsJS (toLowerJS c) = isWsJS c := by
  cases hf : lowerPairs.find? (fun p => p.1 == c) with
  | none =>
    have h1 : toLowerJS c = c := by unfold toLowerJS; rw [hf]
    rw [h1]
  | some p =>
    have hp : p ∈ lowerPairs := List.mem_of_find?_eq_some hf
    have hbeq := List.find?_some hf
    have hc : p.1 = c := by simpa using hbeq
    have h1 : toLowerJS c = p.2 := by unfold toLowerJS; rw [hf]
    rw [h1, ← hc]
    fin_cases hp <;> decide

theorem collapseWsAux_true_head (cs : List Char) (c : Char)
    (h : (collapseWsAux true cs).head? = some c) : isWsJS c = false := by
  induction cs with
  | nil => simp [collapseWsAux] at h
  | cons d rest ih =>
    by_cases hd : isWsJS d
    · rw [collapseWsAux, if_pos hd, if_pos rfl] at h
      exact ih h
    · rw [collapseWsAux, if_neg hd] at h
      simp at h
      rw [← h]
      simpa using hd

theorem collapseWsAux_goodWs (b : Bool) (cs : List Char) :
    goodWsChar (collapseWsAux b cs) := by
  induction cs generalizing b with
  | nil => intro c hc; simp [collapseWsAux] at hc
  | cons d rest ih =>
    intro c hc hws
    by_cases hd : isWsJS d
    · rw [collapseWsAux, if_pos hd] at hc
      by_cases hb : b = true
      · subst hb; rw [if_pos rfl] at hc; exact ih true c hc hws
      · have hb' : b = false := by revert hb; cases b <;> simp
        subst hb'; simp at hc
        rcases hc with h | h
        · exact h
        · exact ih true c h hws
    · rw [collapseWsAux, if_neg hd] at hc
      rcases List.mem_cons.mp hc with h | h
      · subst h; exact absurd hws (by simpa using hd)
      · exact ih false c h hws

theorem collapseWsAux_noAdj (b : Bool) (cs : List Char) :
    noAdjWs (collapseWsAux b cs) := by
  induction cs generalizing b with
  | nil => simp [collapseWsAux, noAdjWs]
  | cons d rest ih =>
    by_cases hd : isWsJS d
    · rw [collapseWsAux, if_pos hd]
      by_cases hb : b = true
      · subst hb; rw [if_pos rfl]; exact ih true
      · have hb' : b = false := by revert hb; cases b <;> simp
        subst hb'; simp only [if_neg (by decide : ¬(false = true))]
        have htail := ih true
        unfold noAdjWs
        rw [List.chain'_cons']
        refine ⟨?_, htail⟩
        intro y hy
        intro hcon
        have := collapseWsAux_true_head rest y hy
        rw [this] at hcon
        exact absurd hcon.2 (by simp)
    · rw [collapseWsAux, if_neg hd]
      have htail := ih false
      unfold noAdjWs
      rw [List.chain'_cons']
      refine ⟨?_, htail⟩
      intro y _ hcon
      exact absurd hcon.1 (by simpa using hd)

theorem collapseWsAux_eq_self (cs : List Char)
    (hgood : goodWsChar cs) (hadj : noAdjWs cs) :
    collapseWsAux false cs = cs ∧
      ((∀ c, cs.head? = some c → isWsJS c = false) → collapseWsAux true cs = cs) := by
  induction cs with
  | nil => exact ⟨rfl, fun _ => rfl⟩
  | cons d rest ih =>
    have hgood' : goodWsChar rest := fun c hc => hgood c (List.mem_cons_of_mem d hc)
    have hadj' : noAdjWs rest := (List.chain'_cons'.mp hadj).2
    obtain ⟨ihf, iht⟩ := ih hgood' hadj'
    constructor
    · by_cases hd : isWsJS d
      · have hdsp : d = ' ' := hgood d (List.mem_cons_self d rest) hd
        rw [collapseWsAux, if_pos hd, if_neg (by decide : ¬(false = true))]
        have hresthead : ∀ c, rest.head? = some c → isWsJS c = false := by
          intro c hc
          have := (List.chain'_cons'.mp hadj).1 c hc
          by_contra hcon
          exact this ⟨hd, by simpa using hcon⟩
        rw [iht hresthead, hdsp]
      · rw [collapseWsAux, if_neg hd, ihf]
    · intro hhead
      have hd : isWsJS d = false := hhead d rfl
      rw [collapseWsAux, if_neg (by simp [hd]), ihf]

theorem collapseWs_eq_self (cs : List Char)
    (hgood : goodWsChar cs) (hadj : noAdjWs cs) : collapseWs cs = cs :=
  (collapseWsAux_eq_self cs hgood hadj).1

/-! ### Preservation of the shape invariants along the pipeline -/

theorem goodWsChar_of_subset (cs ds : List Char)
    (h : ∀ c ∈ cs, c ∈ ds) (hg : goodWsChar ds) : goodWsChar cs :=
  fun c hc => hg c (h c hc)

theorem goodWsChar_dropWhile (p : Char → Bool) (cs : List Char)
    (hg : goodWsChar cs) : goodWsChar (cs.dropWhile p) :=
  goodWsChar_of_subset _ _ (fun _ hc => (List.dropWhile_suffix p).subset hc) hg

theorem goodWsChar_reverse (cs : List Char) (hg : goodWsChar cs) :
    goodWsChar cs.reverse :=
  goodWsChar_of_subset _ _ (fun _ hc => (List.mem_reverse).mp hc) hg

theorem goodWsChar_take (n : ℕ) (cs : List Char) (hg : goodWsChar cs) :
    goodWsChar (cs.take n) :=
  goodWsChar_of_subset _ _ (fun _ hc => (List.take_prefix n cs).subset hc) hg

theorem noAdjWs_dropWhile (p : Char → Bool) (cs : List Char)
    (h : noAdjWs cs) : noAdjWs (cs.dropWhile p) := by
  unfold noAdjWs at *
  have h2 : List.Chain' (fun a b => ¬(isWsJS a = true ∧ isWsJS b = true))
      (cs.takeWhile p ++ cs.dropWhile p) := by
    rw [List.takeWhile_append_dropWhile]; exact h
  exact (List.chain'_append.mp h2).2.1

theorem noAdjWs_reverse (cs : List Char) (h : noAdjWs cs) : noAdjWs cs.reverse := by
  unfold noAdjWs at *
  rw [List.chain'_reverse]
  exact h.imp (fun a b hab hcon => hab ⟨hcon.2, hcon.1⟩)

theorem noAdjWs_take (n : ℕ) (cs : List Char) (h : noAdjWs cs) :
    noAdjWs (cs.take n) := by
  unfold noAdjWs at *
  have h2 : List.Chain' (fun a b => ¬(isWsJS a = true ∧ isWsJS b = true))
      (cs.take n ++ cs.drop n) := by
    rw [List.take_append_drop]; exact h
  exact (List.chain'_append.mp h2).1

theorem goodWsChar_lowerFirst (cs : List Char) (h : goodWsChar cs) :
    goodWsChar (lowerFirst cs) := by
  cases cs with
  | nil => exact h
  | cons c rest =>
    intro d hd hws
    rcases List.mem_cons.mp hd with h1 | h1
    · subst h1
      rw [isWsJS_toLowerJS] at hws
      have hc := h c (List.mem_cons_self c rest) hws
      subst hc
      decide
    · exact h d (List.mem_cons_of_mem c h1) hws

theorem noAdjWs_lowerFirst (cs : List Char) (h : noAdjWs cs) :
    noAdjWs (lowerFirst cs) := by
  cases cs with
  | nil => exact h
  | cons c rest =>
    unfold noAdjWs at *
    rw [List.chain'_cons'] at h
    show List.Chain' _ (toLowerJS c :: rest)
    rw [List.chain'_cons']
    refine ⟨?_, h.2⟩
    intro y hy hcon
    rw [isWsJS_toLowerJS] at hcon
    exact h.1 y hy hcon

/-! ### Heads, tails, and no-op conditions -/

theorem head_dropWhile_false (p : Char → Bool) (cs : List Char) (c : Char)
    (h : (cs.dropWhile p).head? = some c) : p c = false := by
  induction cs with
  | nil => simp [List.dropWhile] at h
  | cons d rest ih =>
    rw [List.dropWhile_cons] at h
    by_cases hd : p d
    · rw [if_pos hd] at h; exact ih h
    · rw [if_neg hd] at h
      simp at h
      rw [← h]
      simpa using hd

theorem dropWhile_eq_self_of_head (p : Char → Bool) (cs : List Char)
    (h : ∀ c, cs.head? = some c → p c = false) : cs.dropWhile p = cs := by
  cases cs with
  | nil => rfl
  | cons a l =>
    rw [List.dropWhile_cons, if_neg]
    simp [h a rfl]

theorem head?_of_isPrefix (l' l : List Char) (h : l' <+: l) (c : Char)
    (hc : l'.head? = some c) : l.head? = some c := by
  obtain ⟨t, rfl⟩ := h
  cases l' with
  | nil => simp at hc
  | cons a _ => simpa using hc

/-- `trimJS cs` is a prefix of `cs.dropWhile isWsJS`. -/
theorem trimJS_isPrefix (cs : List Char) :
    trimJS cs <+: cs.dropWhile isWsJS := by
  unfold trimJS
  have h1 : (cs.dropWhile isWsJS).reverse.dropWhile isWsJS <:+
      (cs.dropWhile isWsJS).reverse := List.dropWhile_suffix isWsJS
  have h2 := List.reverse_prefix.mpr h1
  simpa using h2

theorem head_trimJS_false (cs : List Char) (c : Char)
    (h : (trimJS cs).head? = some c) : isWsJS c = false :=
  head_dropWhile_false isWsJS cs c
    (head?_of_isPrefix _ _ (trimJS_isPrefix cs) c h)

/-! ### Fixed-point facts about `cleanQuestionTextL` -/

theorem cleanQuestionTextL_invariants (cs : List Char) :
    goodWsChar (cleanQuestionTextL cs) ∧ noAdjWs (cleanQuestionTextL cs) := by
  unfold cleanQuestionTextL trimJS
  set u := stripDotsRun (stripEllipsisRun cs)
  have hx : goodWsChar (collapseWs u) ∧ noAdjWs (collapseWs u) :=
    ⟨collapseWsAux_goodWs false u, collapseWsAux_noAdj false u⟩
  have h1 : goodWsChar (((collapseWs u).dropWhile isWsJS).reverse.dropWhile isWsJS).reverse ∧
      noAdjWs (((collapseWs u).dropWhile isWsJS).reverse.dropWhile isWsJS).reverse :=
    ⟨goodWsChar_reverse _ (goodWsChar_dropWhile _ _ (goodWsChar_reverse _
        (goodWsChar_dropWhile _ _ hx.1))),
     noAdjWs_reverse _ (noAdjWs_dropWhile _ _ (noAdjWs_reverse _
        (noAdjWs_dropWhile _ _ hx.2)))⟩
  have h2 := And.intro (goodWsChar_lowerFirst _ h1.1) (noAdjWs_lowerFirst _ h1.2)
  by_cases hlen : 500 <
      (lowerFirst (((collapseWs u).dropWhile isWsJS).reverse.dropWhile isWsJS).reverse).length
  · rw [if_pos hlen]
    exact ⟨goodWsChar_take _ _ h2.1, noAdjWs_take _ _ h2.2⟩
  · rw [if_neg hlen]
    exact h2

theorem cleanQuestionTextL_head (cs : List Char) (c : Char)
    (h : (cleanQuestionTextL cs).head? = some c) :
    isWsJS c = false ∧ toLowerJS c = c := by
  unfold cleanQuestionTextL at h
  set t0 := trimJS (collapseWs (stripDotsRun (stripEllipsisRun cs))) with ht0
  have hlf : (lowerFirst t0).head? = some c := by
    by_cases hlen : 500 < (lowerFirst t0).length
    · rw [if_pos hlen] at h
      exact head?_of_isPrefix _ _ (List.take_prefix 500 (lowerFirst t0)) c h
    · rwa [if_neg hlen] at h
  cases hc : t0 with
  | nil => rw [hc] at hlf; simp [lowerFirst] at hlf
  | cons d rest =>
    rw [hc] at hlf
    simp [lowerFirst] at hlf
    have hd : isWsJS d = false := by
      apply head_trimJS_false (collapseWs (stripDotsRun (stripEllipsisRun cs))) d
      rw [← ht0, hc]; rfl
    constructor
    · rw [← hlf, isWsJS_toLowerJS]; exact hd
    · rw [← hlf]; exact toLowerJS_fix d

theorem cleanQuestionTextL_length (cs : List Char) :
    (cleanQuestionTextL cs).length ≤ 500 := by
  unfold cleanQuestionTextL
  by_cases hlen : 500 <
      (lowerFirst (trimJS (collapseWs (stripDotsRun (stripEllipsisRun cs))))).length
  · rw [if_pos hlen]
    simp
  · rw [if_neg hlen]
    omega

/-- Normalized text is a fixed point of the normalization pipeline provided it
does not start with an ellipsis, does not start with two ASCII dots, and does
not end in whitespace (the three ways a normalized string can fail to be
fixed). -/
theorem cleanQuestionTextL_eq_self (cs : List Char)
    (h1 : (cleanQuestionTextL cs).head? ≠ some '…')
    (h2 : (cleanQuestionTextL cs).take 2 ≠ ['.', '.'])
    (h3 : ∀ c, (cleanQuestionTextL cs).getLast? = some c → isWsJS c = false) :
    cleanQuestionTextL (cleanQuestionTextL cs) = cleanQuestionTextL cs := by
  set r := cleanQuestionTextL cs with hr
  obtain ⟨hgood, hadj⟩ := cleanQuestionTextL_invariants cs
  have hhead : ∀ c, r.head? = some c → isWsJS c = false ∧ toLowerJS c = c :=
    fun c hc => cleanQuestionTextL_head cs c hc
  have e1 : stripEllipsisRun r = r := by
    cases hc : r with
    | nil => rfl
    | cons c rest =>
      have hne : (c == '…') = false := by
        by_cases hceq : c = '…'
        · exact absurd (show r.head? = some '…' by rw [hc, hceq]; rfl) h1
        · simpa using hceq
      rw [stripEllipsisRun, hne]
      simp
  have e2 : stripDotsRun r = r := by
    cases hc : r with
    | nil => rfl
    | cons c1 rest1 =>
      cases hrest : rest1 with
      | nil => rfl
      | cons c2 rest2 =>
        have hne : (c1 == '.' && c2 == '.') = false := by
          by_cases hceq : c1 = '.' ∧ c2 = '.'
          · exact absurd
              (show List.take 2 r = ['.', '.'] by
                rw [hc, hrest, hceq.1, hceq.2]; rfl) h2
          · rcases not_and_or.mp hceq with h | h <;> simp [h]
        rw [stripDotsRun, hne]
        simp
  have e3 : collapseWs r = r := collapseWs_eq_self r hgood hadj
  have e4 : trimJS r = r := by
    unfold trimJS
    rw [dropWhile_eq_self_of_head _ _ (fun c hc => (hhead c hc).1)]
    rw [dropWhile_eq_self_of_head _ _ (fun c hc =>
      h3 c (by rwa [List.head?_reverse] at hc))]
    exact List.reverse_reverse r
  have e5 : lowerFirst r = r := by
    cases hc : r with
    | nil => rfl
    | cons c rest =>
      have := (hhead c (by rw [hc]; rfl)).2
      rw [lowerFirst, this]
  have e6 : ¬(500 < r.length) := by
    have := cleanQuestionTextL_length cs
    show ¬(500 < (cleanQuestionTextL cs).length)
    omega
  show cleanQuestionTextL r = r
  unfold cleanQuestionTextL
  rw [e1, e2, e3, e4]
  show (if 500 < (lowerFirst r).length then List.take 500 (lowerFirst r)
    else lowerFirst r) = r
  rw [e5, if_neg e6]

/-! ## Lemmas about `assignCategories` -/

/-- Every generated candidate has length `k`, is strictly ascending, and draws
its slot indices from `start .. n-1`. -/
theorem combinations_spec (n : ℕ) :
    ∀ (k start : ℕ) (a : List ℕ), a ∈ combinations n k start →
      a.length = k ∧ List.Chain' (· < ·) a ∧ ∀ x ∈ a, start ≤ x ∧ x < n := by
  intro k
  induction k with
  | zero =>
    intro start a ha
    rw [combinations] at ha
    simp at ha
    subst ha
    refine ⟨rfl, List.chain'_nil, by simp⟩
  | succ k ih =>
    intro start a ha
    rw [combinations] at ha
    simp only [List.mem_flatMap, List.mem_map] at ha
    obtain ⟨i, hi, rest, hrest, rfl⟩ := ha
    have hi' := List.mem_range'_1.mp hi
    obtain ⟨hlen, hchain, hbound⟩ := ih (i + 1) rest hrest
    refine ⟨by simp [hlen], ?_, ?_⟩
    · rw [List.chain'_cons']
      refine ⟨?_, hchain⟩
      intro y hy
      have := hbound y (List.mem_of_mem_head? hy)
      omega
    · intro x hx
      rcases List.mem_cons.mp hx with h | h
      · subst h; omega
      · have := hbound x h
        omega

/-- The first generated candidate: the identity block `[start, …, start+k-1]`. -/
theorem range'_mem_combinations (n : ℕ) :
    ∀ (k start : ℕ), start + k ≤ n → List.range' start k ∈ combinations n k start := by
  intro k
  induction k with
  | zero => intro start _; rw [combinations]; simp
  | succ k ih =>
    intro start hle
    rw [combinations]
    simp only [List.mem_flatMap, List.mem_map]
    refine ⟨start, ?_, List.range' (start + 1) k, ih (start + 1) (by omega), ?_⟩
    · rw [List.mem_range'_1]
      omega
    · rw [List.range'_succ]

/-- The selection fold only ever returns a member of the candidate list. -/
theorem chooseBest_fold_mem (pcts : List ℚ) (m : ℚ) :
    ∀ (cands : List (List ℕ)) (acc : Option (List ℕ) × Option ℚ) (a : List ℕ),
      (cands.foldl
        (fun acc a =>
          match scoreOf pcts m a with
          | none => acc
          | some sc =>
            match acc.2 with
            | none => (some a, some sc)
            | some best => if sc < best then (some a, some sc) else acc)
        acc).1 = some a →
      acc.1 = some a ∨ a ∈ cands := by
  intro cands
  induction cands with
  | nil => intro acc a h; exact Or.inl h
  | cons c cs ih =>
    intro acc a h
    rw [List.foldl_cons] at h
    rcases ih _ a h with h1 | h1
    · split at h1
      · exact Or.inl h1
      · split at h1
        · simp at h1
          exact Or.inr (by rw [← h1]; exact List.mem_cons_self c cs)
        · split at h1
          · simp at h1
            exact Or.inr (by rw [← h1]; exact List.mem_cons_self c cs)
          · exact Or.inl h1
    · exact Or.inr (List.mem_cons_of_mem c h1)

theorem chooseBest_mem (pcts : List ℚ) (m : ℚ) (cands : List (List ℕ))
    (a : List ℕ) (h : (chooseBest pcts m cands).1 = some a) : a ∈ cands := by
  rcases chooseBest_fold_mem pcts m cands (none, none) a h with h1 | h1
  · simp at h1
  · exact h1

/-- If the selection fold comes back empty then every candidate was scoreless. -/
theorem chooseBest_fold_none (pcts : List ℚ) (m : ℚ) :
    ∀ (cands : List (List ℕ)) (acc : Option (List ℕ) × Option ℚ),
      (acc.1 = none → acc.2 = none) →
      (cands.foldl
        (fun acc a =>
          match scoreOf pcts m a with
          | none => acc
          | some sc =>
            match acc.2 with
            | none => (some a, some sc)
            | some best => if sc < best then (some a, some sc) else acc)
        acc).1 = none →
      acc.1 = none ∧ ∀ c ∈ cands, scoreOf pcts m c = none := by
  intro cands
  induction cands with
  | nil => intro acc _ h; exact ⟨h, by simp⟩
  | cons c cs ih =>
    intro acc hacc h
    rw [List.foldl_cons] at h
    cases hsc : scoreOf pcts m c with
    | none =>
      simp only [hsc] at h
      obtain ⟨h1, h2⟩ := ih acc hacc h
      refine ⟨h1, ?_⟩
      intro d hd
      rcases List.mem_cons.mp hd with rfl | hmem
      · exact hsc
      · exact h2 d hmem
    | some sc =>
      simp only [hsc] at h
      cases hacc2 : acc.2 with
      | none =>
        simp only [hacc2] at h
        have := (ih (some c, some sc) (by simp) h).1
        simp at this
      | some best =>
        simp only [hacc2] at h
        by_cases hlt : sc < best
        · simp only [if_pos hlt] at h
          have := (ih (some c, some sc) (by simp) h).1
          simp at this
        · simp only [if_neg hlt] at h
          obtain ⟨h1, _⟩ := ih acc hacc h
          exact absurd (hacc h1) (by simp [hacc2])

theorem filterMap_id_replicate_none (L : ℕ) :
    (List.replicate L (none : Option ℚ)).filterMap id = [] := by
  induction L with
  | zero => rfl
  | succ n ih => rw [List.replicate_succ, List.filterMap_cons]; exact ih

theorem set_append_of_le (front : List (Option ℚ)) :
    ∀ (back : List (Option ℚ)) (k : ℕ) (v : Option ℚ), front.length ≤ k →
      (front ++ back).set k v = front ++ back.set (k - front.length) v := by
  induction front with
  | nil => simp
  | cons a fr ih =>
    intro back k v hk
    cases k with
    | zero => simp at hk
    | succ k' =>
      simp only [List.cons_append, List.set_cons_succ, List.length_cons]
      rw [ih back k' v (by simp at hk; omega)]
      rw [Nat.succ_sub_succ]

theorem foldl_set_shift (ws : List (ℕ × ℚ)) :
    ∀ (front back : List (Option ℚ)) (d : ℕ), front.length = d →
      (∀ q ∈ ws, d ≤ q.1) →
      ws.foldl (fun s q => s.set q.1 (some q.2)) (front ++ back)
        = front ++ ws.foldl (fun s q => s.set (q.1 - d) (some q.2)) back := by
  induction ws with
  | nil => intro front back d _ _; simp
  | cons w ws ih =>
    intro front back d hd hws
    rw [List.foldl_cons, List.foldl_cons]
    rw [set_append_of_le front back w.1 (some w.2) (by
      rw [hd]; exact hws w (List.mem_cons_self w ws))]
    rw [hd]
    exact ih front _ d hd (fun q hq => hws q (List.mem_cons_of_mem _ hq))

theorem chain'_lt_sub (d : ℕ) : ∀ (l : List ℕ), (∀ x ∈ l, d ≤ x) →
    List.Chain' (· < ·) l → List.Chain' (· < ·) (l.map (fun x => x - d)) := by
  intro l
  induction l with
  | nil => simp
  | cons a l ih =>
    intro hb hc
    cases l with
    | nil => simp
    | cons b l2 =>
      rw [List.map_cons, List.map_cons]
      rw [List.chain'_cons] at hc
      rw [List.chain'_cons]
      constructor
      · have hdb : d ≤ b := hb b (by simp)
        have hda : d ≤ a := hb a (by simp)
        have := hc.1
        omega
      · show List.Chain' (fun x1 x2 => x1 < x2) (List.map (fun x => x - d) (b :: l2))
        exact ih (fun x hx => hb x (List.mem_cons_of_mem a hx)) hc.2

/-- Writing the percentages into a strictly ascending list of slot indices and
reading the non-null slots back in slot order recovers exactly the
percentages, in their original order. -/
theorem writeSlots_filterMap (a : List ℕ) (ps : List ℚ) (L : ℕ)
    (hchain : List.Chain' (· < ·) a) (hbound : ∀ x ∈ a, x < L)
    (hlen : a.length = ps.length) :
    (writeSlots a ps (List.replicate L none)).filterMap id = ps := by
  suffices hgen : ∀ (n : ℕ) (a : List ℕ) (ps : List ℚ) (L : ℕ), a.length = n →
      List.Chain' (· < ·) a → (∀ x ∈ a, x < L) → a.length = ps.length →
      (writeSlots a ps (List.replicate L none)).filterMap id = ps by
    exact hgen a.length a ps L rfl hchain hbound hlen
  intro n
  induction n with
  | zero =>
    intro a ps L hn _ _ hlen'
    have ha : a = [] := List.length_eq_zero.mp hn
    subst ha
    have : ps = [] := List.length_eq_zero.mp (by simpa using hlen'.symm)
    subst this
    exact filterMap_id_replicate_none L
  | succ n ihn =>
    intro a ps L hn hchain hbound hlen'
    cases a with
    | nil => simp at hn
    | cons i a' =>
      cases ps with
      | nil => simp at hlen'
      | cons p ps' =>
        have hiL : i < L := hbound i (List.mem_cons_self i a')
        have hgt : ∀ x ∈ a', i < x := by
          have := List.chain'_iff_pairwise.mp hchain
          exact fun x hx => (List.pairwise_cons.mp this).1 x hx
        unfold writeSlots
        rw [List.zip_cons_cons, List.foldl_cons]
        have hsplit : List.replicate L (none : Option ℚ)
            = List.replicate i none ++ none :: List.replicate (L - i - 1) none := by
          rw [← List.replicate_succ, ← List.replicate_add]
          congr 1
          omega
        rw [hsplit]
        have hset : (List.replicate i (none : Option ℚ) ++
              none :: List.replicate (L - i - 1) none).set i (some p)
            = (List.replicate i none ++ [some p]) ++
                List.replicate (L - i - 1) none := by
          rw [set_append_of_le (List.replicate i none) _ i (some p) (by simp)]
          simp
        rw [hset]
        have hge : ∀ q ∈ a'.zip ps', i + 1 ≤ q.1 := by
          intro q hq
          exact hgt q.1 (List.of_mem_zip hq).1
        rw [foldl_set_shift (a'.zip ps') _ _ (i + 1) (by simp) hge]
        have hinner : (a'.zip ps').foldl
              (fun s q => s.set (q.1 - (i + 1)) (some q.2))
              (List.replicate (L - i - 1) none)
            = writeSlots (a'.map (fun x => x - (i + 1))) ps'
                (List.replicate (L - i - 1) none) := by
          unfold writeSlots
          rw [List.zip_map_left, List.foldl_map]
          rfl
        rw [hinner]
        rw [List.append_assoc, List.filterMap_append, List.filterMap_append]
        rw [filterMap_id_replicate_none]
        have hih : (writeSlots (a'.map (fun x => x - (i + 1))) ps'
              (List.replicate (L - i - 1) none)).filterMap id = ps' := by
          apply ihn
          · simpa using Nat.succ_injective (by simpa using hn)
          · exact chain'_lt_sub (i + 1) a' (fun x hx => hgt x hx)
              (List.chain'_cons'.mp hchain).2
          · intro y hy
            obtain ⟨x, hx, rfl⟩ := List.mem_map.mp hy
            have h1 := hbound x (List.mem_cons_of_mem i hx)
            have h2 := hgt x hx
            omega
          · simpa using Nat.succ_injective (by simpa using hlen')
        rw [hih]
        simp

theorem filterMap_id_map_some (l : List ℚ) : (l.map some).filterMap id = l := by
  induction l with
  | nil => rfl
  | cons a l ih => simp [List.filterMap_cons, ih]

theorem foldl_add_snd (l : List (ℕ × ℚ)) :
    ∀ c : ℚ, l.foldl (fun s q => s + q.2) c = c + (l.map Prod.snd).sum := by
  induction l with
  | nil => intro c; simp
  | cons w ws ih =>
    intro c
    rw [List.foldl_cons, ih]
    simp [add_assoc]

/-- The all-Likert candidate `[0, 1, …, N-1]` always gets a computed mean when
the percentages are positive and `N ≤ 5`. -/
theorem computeMean_range_ne_none (ps : List ℚ) (hpos : ∀ x ∈ ps, 0 < x)
    (h1 : 1 ≤ ps.length) (h5 : ps.length ≤ 5) :
    computeMean ps (List.range ps.length) ≠ none := by
  have hfil : ((List.range ps.length).zip ps).filter (fun q => decide (q.1 < 5))
      = (List.range ps.length).zip ps := by
    apply List.filter_eq_self.mpr
    intro q hq
    have hmem := (List.of_mem_zip hq).1
    have := List.mem_range.mp hmem
    simp
    omega
  have hsnd : ((List.range ps.length).zip ps).map Prod.snd = ps :=
    List.map_snd_zip _ _ (by simp)
  have hpos' : 0 < ((List.range ps.length).zip ps).foldl (fun s q => s + q.2) 0 := by
    rw [foldl_add_snd, hsnd, zero_add]
    exact List.sum_pos ps hpos (by
      intro hcon
      rw [hcon] at h1
      simp at h1)
  simp only [computeMean]
  rw [hfil, if_pos hpos']
  simp

theorem scoreOf_range_ne_none (ps : List ℚ) (m : ℚ) (hpos : ∀ x ∈ ps, 0 < x)
    (h1 : 1 ≤ ps.length) (h5 : ps.length ≤ 5) :
    scoreOf ps m (List.range ps.length) ≠ none := by
  have h := computeMean_range_ne_none ps hpos h1 h5
  unfold scoreOf
  cases hv : computeMean ps (List.range ps.length) with
  | none => exact absurd hv h
  | some v => simp

/-- The fallback heuristic, don't-know branch: `sum < 90` and `2 ≤ N ≤ 5`. -/
theorem assignCategories_fallback_dk (pcts : List ℚ) (h2 : 2 ≤ pcts.length)
    (h5 : pcts.length ≤ 5) (hsum : pcts.foldl (· + ·) 0 < 90) :
    assignCategories pcts none
      = List.replicate (6 - pcts.length) none ++
          pcts.dropLast.map some ++ [pcts.getLast?] := by
  rcases pcts with _ | ⟨p1, _ | ⟨p2, _ | ⟨p3, _ | ⟨p4, _ | ⟨p5, _ | ⟨p6, rest⟩⟩⟩⟩⟩⟩
  · simp at h2
  · simp at h2
  · unfold assignCategories
    norm_num at hsum ⊢
    rw [if_pos hsum]
    norm_num [List.range_succ]
    rfl
  · unfold assignCategories
    norm_num at hsum ⊢
    rw [if_pos hsum]
    norm_num [List.range_succ]
    rfl
  · unfold assignCategories
    norm_num at hsum ⊢
    rw [if_pos hsum]
    norm_num [List.range_succ]
    rfl
  · unfold assignCategories
    norm_num at hsum ⊢
    rw [if_pos hsum]
    norm_num [List.range_succ]
    rfl
  · simp at h5

/-- The fallback heuristic, all-Likert branch (`sum ≥ 90`, or a single bar). -/
theorem assignCategories_fallback_likert (pcts : List ℚ) (h1 : 1 ≤ pcts.length)
    (h5 : pcts.length ≤ 5)
    (hsum : ¬(pcts.foldl (· + ·) 0 < 90 ∧ 2 ≤ pcts.length)) :
    assignCategories pcts none
      = List.replicate (5 - pcts.length) none ++ pcts.map some ++ [none] := by
  rcases pcts with _ | ⟨p1, _ | ⟨p2, _ | ⟨p3, _ | ⟨p4, _ | ⟨p5, _ | ⟨p6, rest⟩⟩⟩⟩⟩⟩
  · simp at h1
  · unfold assignCategories
    norm_num [List.range_succ]
    rfl
  · have hge : ¬([p1, p2].foldl (· + ·) 0 < 90) := fun hc => hsum ⟨hc, by simp⟩
    unfold assignCategories
    norm_num at hge ⊢
    rw [if_neg (not_lt.mpr hge)]
    norm_num [List.range_succ]
    rfl
  · have hge : ¬([p1, p2, p3].foldl (· + ·) 0 < 90) := fun hc => hsum ⟨hc, by simp⟩
    unfold assignCategories
    norm_num at hge ⊢
    rw [if_neg (not_lt.mpr hge)]
    norm_num [List.range_succ]
    rfl
  · have hge : ¬([p1, p2, p3, p4].foldl (· + ·) 0 < 90) := fun hc => hsum ⟨hc, by simp⟩
    unfold assignCategories
    norm_num at hge ⊢
    rw [if_neg (not_lt.mpr hge)]
    norm_num [List.range_succ]
    rfl
  · have hge : ¬([p1, p2, p3, p4, p5].foldl (· + ·) 0 < 90) := fun hc => hsum ⟨hc, by simp⟩
    unfold assignCategories
    norm_num at hge ⊢
    rw [if_neg (not_lt.mpr hge)]
    norm_num [List.range_succ]
    rfl
  · simp at h5

/-- Order consistency of the assignment: with positive percentages, the
non-null slots read in slot order are exactly the first `min(N, 6)` input
percentages, in their original left-to-right order. -/
theorem assignCategories_ordered (pcts : List ℚ) (meanValue : Option ℚ)
    (hpos : ∀ x ∈ pcts, 0 < x) :
    (assignCategories pcts meanValue).filterMap id = pcts.take 6 := by
  by_cases h0 : pcts.length = 0
  · have hnil : pcts = [] := List.length_eq_zero.mp h0
    subst hnil
    rfl
  · by_cases h6 : 6 ≤ pcts.length
    · rcases pcts with _ | ⟨a, _ | ⟨b, _ | ⟨c, _ | ⟨d, _ | ⟨e, _ | ⟨f, rest⟩⟩⟩⟩⟩⟩
      · simp at h0
      · simp at h6
      · simp at h6
      · simp at h6
      · simp at h6
      · simp at h6
      · simp [assignCategories]
    · have h1 : 1 ≤ pcts.length := Nat.one_le_iff_ne_zero.mpr h0
      have h5 : pcts.length ≤ 5 := by omega
      have hne_nil : pcts ≠ [] := by
        intro hcon
        rw [hcon] at h1
        simp at h1
      rw [List.take_of_length_le (by omega)]
      cases meanValue with
      | none =>
        by_cases hc : pcts.foldl (· + ·) 0 < 90 ∧ 2 ≤ pcts.length
        · rw [assignCategories_fallback_dk pcts hc.2 h5 hc.1]
          rw [List.getLast?_eq_getLast pcts hne_nil]
          rw [List.filterMap_append, List.filterMap_append, filterMap_id_replicate_none]
          rw [filterMap_id_map_some pcts.dropLast]
          have h3 : List.filterMap id [some (pcts.getLast hne_nil)]
              = [pcts.getLast hne_nil] := by simp
          rw [h3]
          simpa using List.dropLast_append_getLast hne_nil
        · rw [assignCategories_fallback_likert pcts h1 h5 hc]
          rw [List.filterMap_append, List.filterMap_append, filterMap_id_replicate_none]
          simp
      | some m =>
        have hnone : (chooseBest pcts m (combinations 6 pcts.length 0)).1 ≠ none := by
          intro hnone
          have hall := chooseBest_fold_none pcts m (combinations 6 pcts.length 0)
            (none, none) (fun _ => rfl) hnone
          have hmem : List.range pcts.length ∈ combinations 6 pcts.length 0 := by
            rw [List.range_eq_range']
            exact range'_mem_combinations 6 pcts.length 0 (by omega)
          exact scoreOf_range_ne_none pcts m hpos h1 h5 (hall.2 _ hmem)
        obtain ⟨best, hbest⟩ := Option.ne_none_iff_exists'.mp hnone
        obtain ⟨hlen, hchain, hbounds⟩ := combinations_spec 6 pcts.length 0 best
          (chooseBest_mem pcts m _ best hbest)
        have hred : assignCategories pcts (some m) = writeSlots best pcts sixNone := by
          simp only [assignCategories]
          rw [if_neg h0, if_neg h6, hbest]
        rw [hred]
        show (writeSlots best pcts (List.replicate 6 none)).filterMap id = pcts
        exact writeSlots_filterMap best pcts 6 hchain
          (fun x hx => (hbounds x hx).2) (by rw [hlen])

/-! ## Claims about `assignCategories` -/

/-- C1 (confirmed): for the bar percentages `[35, 58]` and actual mean `4.52`,
`assignCategories` places 35 in the agree slot and 58 in the strongly-agree
slot, all other slots null — the minimum score over all C(6,2) = 15 ordered
slot choices is attained at slots {agree, strongly-agree}. -/
theorem C1_assign_35_58_agree_stronglyAgree :
    (combinations 6 2 0).length = 15 ∧
    assignCategories [35, 58] (some (452 / 100))
      = [none, none, none, some 35, some 58, none] :=
  ⟨by decide, by decide⟩

/-- C2 (confirmed): fallback path with no mean available, for 2 ≤ N ≤ 5
percentages: a sum of at least 95 assigns all N values, in order, to the N
most-positive Likert slots; a sum below 90 sends the last value to the
don't-know slot and the remaining N-1 values, in order, to the most-positive
N-1 Likert slots. -/
theorem C2_fallback_no_mean (pcts : List ℚ) (h2 : 2 ≤ pcts.length)
    (h5 : pcts.length ≤ 5) :
    (95 ≤ pcts.foldl (· + ·) 0 →
      assignCategories pcts none
        = List.replicate (5 - pcts.length) none ++ pcts.map some ++ [none]) ∧
    (pcts.foldl (· + ·) 0 < 90 →
      assignCategories pcts none
        = List.replicate (6 - pcts.length) none ++
            pcts.dropLast.map some ++ [pcts.getLast?]) := by
  constructor
  · intro hsum
    exact assignCategories_fallback_likert pcts (by omega) h5
      (fun hcon => absurd hcon.1 (by linarith))
  · intro hsum
    exact assignCategories_fallback_dk pcts h2 h5 hsum

/-- C2, witness: both branches of the fallback at concrete inputs. -/
theorem C2_fallback_no_mean_witness :
    (2 ≤ ([50, 48] : List ℚ).length ∧ ([50, 48] : List ℚ).length ≤ 5 ∧
      95 ≤ ([50, 48] : List ℚ).foldl (· + ·) 0 ∧
      assignCategories [50, 48] none
        = [none, none, none, some 50, some 48, none]) ∧
    (2 ≤ ([30, 40] : List ℚ).length ∧ ([30, 40] : List ℚ).length ≤ 5 ∧
      ([30, 40] : List ℚ).foldl (· + ·) 0 < 90 ∧
      assignCategories [30, 40] none
        = [none, none, none, none, some 30, some 40]) := by
  refine ⟨⟨by decide, by decide, by decide, ?_⟩,
          ⟨by decide, by decide, by decide, ?_⟩⟩
  · rw [(C2_fallback_no_mean [50, 48] (by decide) (by decide)).1 (by decide)]
    decide
  · rw [(C2_fallback_no_mean [30, 40] (by decide) (by decide)).2 (by decide)]
    decide

/-- C9 (corrected), counterexample: with the all-zero percentage list
`[0, 0]` and a mean present, every candidate assignment has zero Likert mass,
so no best assignment exists and every slot stays null — the claimed
order-consistency fails as stated for arbitrary percentage lists. -/
theorem C9_counterexample_zero_percentages :
    (assignCategories [0, 0] (some (452 / 100))).filterMap id ≠
      ([0, 0] : List ℚ).take 6 := by
  decide

/-- C9 (corrected, amended to positive percentages): for every list of
positive percentages and every optional mean, the non-null slots of
`assignCategories`, read in slot order strongly-disagree → … → don't-know,
are exactly the first min(N, 6) input percentages in their original
left-to-right order. -/
theorem C9_slots_ordered (pcts : List ℚ) (meanValue : Option ℚ)
    (hpos : ∀ x ∈ pcts, 0 < x) :
    (assignCategories pcts meanValue).filterMap id = pcts.take 6 :=
  assignCategories_ordered pcts meanValue hpos

/-- C9, witness: the order-consistency property at the concrete C1 input. -/
theorem C9_slots_ordered_witness :
    (∀ x ∈ ([35, 58] : List ℚ), 0 < x) ∧
    (assignCategories [35, 58] (some (452 / 100))).filterMap id
      = ([35, 58] : List ℚ).take 6 :=
  ⟨by decide, C9_slots_ordered [35, 58] (some (452 / 100)) (by decide)⟩

/-! ## Claims about `cleanQuestionText` -/

/-- C4 (corrected), counterexample: normalization is not idempotent.
`cleanQuestionText " ..." = "..."` (the leading-dots rule does not fire
because of the leading space), but a second application strips the three
leading dots, giving the empty string. -/
theorem C4_counterexample_not_idempotent :
    cleanQuestionText (cleanQuestionText " ...") ≠ cleanQuestionText " ..." := by
  decide

/-- C4 (corrected, amended): `cleanQuestionText` is idempotent on every
string whose normalized form does not begin with an ellipsis, does not begin
with two ASCII dots, and does not end in whitespace — the three ways (leading
ellipsis exposed by whitespace stripping, leading dot run exposed by
whitespace stripping, trailing space created by the 500-character truncation)
in which a normalized string can fail to be a fixed point. -/
theorem C4_cleanQuestionText_idem (s : String)
    (h1 : (cleanQuestionText s).data.head? ≠ some '…')
    (h2 : (cleanQuestionText s).data.take 2 ≠ ['.', '.'])
    (h3 : (cleanQuestionText s).data.getLast?.all (fun c => !isWsJS c) = true) :
    cleanQuestionText (cleanQuestionText s) = cleanQuestionText s := by
  have h3' : ∀ c, (cleanQuestionTextL s.data).getLast? = some c → isWsJS c = false := by
    intro c hc
    have h4 : (cleanQuestionText s).data.getLast? = some c := hc
    rw [h4] at h3
    simpa using h3
  have hmain := cleanQuestionTextL_eq_self s.data h1 h2 h3'
  show (⟨cleanQuestionTextL (cleanQuestionTextL s.data)⟩ : String)
      = ⟨cleanQuestionTextL s.data⟩
  rw [hmain]

/-- C4, witness: idempotence at a concrete already-normalized question. -/
theorem C4_cleanQuestionText_idem_witness :
    ((cleanQuestionText "Mitt barn trivs i förskolan").data.head? ≠ some '…') ∧
    ((cleanQuestionText "Mitt barn trivs i förskolan").data.take 2 ≠ ['.', '.']) ∧
    ((cleanQuestionText "Mitt barn trivs i förskolan").data.getLast?.all
        (fun c => !isWsJS c) = true) ∧
    cleanQuestionText (cleanQuestionText "Mitt barn trivs i förskolan")
      = cleanQuestionText "Mitt barn trivs i förskolan" :=
  ⟨by decide, by decide, by decide,
    C4_cleanQuestionText_idem "Mitt barn trivs i förskolan"
      (by decide) (by decide) (by decide)⟩

/-! ## Claims about `findUnitSheetIds` -/

theorem endsWith_0000_imp_00 (id : String)
    (h : strEndsWith id "0000" = true) : strEndsWith id "00" = true := by
  unfold strEndsWith at h ⊢
  rw [List.isSuffixOf_iff_suffix] at h ⊢
  exact List.IsSuffix.trans (by decide) h

/-- C6 (confirmed): leaf-sheet resolution.  District totals (ids ending
`0000`) are never retained; unit-level ids (not ending `00`) are always
retained; a school-group id (ending `00`, not `0000`) is retained exactly
when no other id in the list both extends its prefix (the id minus its last
two digits) and is itself unit-level.  On the spec's concrete sheet list the
retained set is exactly `{"100101", "100200"}`. -/
theorem C6_findUnitSheetIds_leaves :
    (∀ sheetNames : List String,
      (∀ id ∈ findUnitSheetIds sheetNames, strEndsWith id "0000" = false) ∧
      (∀ id ∈ tIdsOf sheetNames, strEndsWith id "00" = false →
        id ∈ findUnitSheetIds sheetNames) ∧
      (∀ id ∈ tIdsOf sheetNames, strEndsWith id "00" = true →
        strEndsWith id "0000" = false →
        (id ∈ findUnitSheetIds sheetNames ↔
          ¬∃ other ∈ tIdsOf sheetNames, other ≠ id ∧
            strStartsWith other (groupPfx id) = true ∧
            strEndsWith other "00" = false))) ∧
    findUnitSheetIds ["T100000", "T100100", "T100101", "T100200"]
      = ["100101", "100200"] := by
  constructor
  · intro sheetNames
    refine ⟨?_, ?_, ?_⟩
    · intro id hid
      have hid' : id ∈ (tIdsOf sheetNames).filter (fun id =>
          !strEndsWith id "0000" &&
          (!strEndsWith id "00" || !hasChildren (tIdsOf sheetNames) id)) := hid
      have := (List.mem_filter.mp hid').2
      simp only [Bool.and_eq_true, Bool.not_eq_true'] at this
      exact this.1
    · intro id hid h00
      show id ∈ (tIdsOf sheetNames).filter _
      apply List.mem_filter.mpr
      refine ⟨hid, ?_⟩
      have h0000 : strEndsWith id "0000" = false := by
        by_contra hcon
        have := endsWith_0000_imp_00 id (by
          revert hcon
          cases strEndsWith id "0000" <;> simp)
        rw [h00] at this
        exact absurd this (by simp)
      simp [h0000, h00]
    · intro id hid h00 h0000
      constructor
      · intro hmem hex
        have hmem' : id ∈ (tIdsOf sheetNames).filter (fun id =>
            !strEndsWith id "0000" &&
            (!strEndsWith id "00" || !hasChildren (tIdsOf sheetNames) id)) := hmem
        have hpred := (List.mem_filter.mp hmem').2
        simp only [Bool.and_eq_true, Bool.or_eq_true, Bool.not_eq_true'] at hpred
        rcases hpred.2 with hcon | hnochild
        · rw [h00] at hcon; exact absurd hcon (by simp)
        · obtain ⟨other, hoth, hne, hpfx, h00'⟩ := hex
          have : hasChildren (tIdsOf sheetNames) id = true := by
            unfold hasChildren
            rw [List.any_eq_true]
            refine ⟨other, hoth, ?_⟩
            simp [hne, hpfx, h00']
          rw [this] at hnochild
          exact absurd hnochild (by simp)
      · intro hnoex
        show id ∈ (tIdsOf sheetNames).filter _
        apply List.mem_filter.mpr
        refine ⟨hid, ?_⟩
        have hnochild : hasChildren (tIdsOf sheetNames) id = false := by
          by_contra hcon
          have hcon' : hasChildren (tIdsOf sheetNames) id = true := by
            revert hcon
            cases hasChildren (tIdsOf sheetNames) id <;> simp
          unfold hasChildren at hcon'
          rw [List.any_eq_true] at hcon'
          obtain ⟨other, hoth, hprop⟩ := hcon'
          simp only [Bool.and_eq_true, Bool.not_eq_true', beq_eq_false_iff_ne] at hprop
          exact hnoex ⟨other, hoth, hprop.1.1, hprop.1.2, hprop.2⟩
        simp [h0000, hnochild]
  · decide

/-- C6, witness: the unit-level id `"100101"` of the spec's concrete sheet
list is retained. -/
theorem C6_findUnitSheetIds_leaves_witness :
    ("100101" ∈ tIdsOf ["T100000", "T100100", "T100101", "T100200"]) ∧
    (strEndsWith "100101" "00" = false) ∧
    "100101" ∈ findUnitSheetIds ["T100000", "T100100", "T100101", "T100200"] :=
  ⟨by decide, by decide,
    ((C6_findUnitSheetIds_leaves.1
        ["T100000", "T100100", "T100101", "T100200"]).2.1
      "100101" (by decide) (by decide))⟩

/-! ## Claims about `detectFormat` -/

/-- C3 (confirmed): format detection is a total deterministic function with
first-match-wins ordering: every text gets exactly one of the four PDF tags;
any text matching the NKI/quality-factor fingerprint is `scandinfo` even if
it also contains the seven-point markers; a text with a seven-point marker is
`7point` exactly when it also matches `Resultat per fråga` (and `ecers`
otherwise); and a text matching no fingerprint is `5point`. -/
theorem C3_detectFormat_total_first_match (text : String) :
    (detectFormat text = .scandinfo ∨ detectFormat text = .fivePoint ∨
      detectFormat text = .sevenPoint ∨ detectFormat text = .ecers) ∧
    ((matchNkiHelhet text || matchKvalSkalsteg text) = true →
      detectFormat text = .scandinfo) ∧
    ((matchNkiHelhet text || matchKvalSkalsteg text) = false →
      ((matchSjugradig text || matchOtillracklig text) = true →
        ((detectFormat text = .sevenPoint ↔ matchResultatPerFraga text = true) ∧
         (matchResultatPerFraga text = false → detectFormat text = .ecers))) ∧
      ((matchSjugradig text || matchOtillracklig text) = false →
        detectFormat text = .fivePoint)) := by
  unfold detectFormat
  cases h1 : (matchNkiHelhet text || matchKvalSkalsteg text) <;>
    cases h2 : (matchSjugradig text || matchOtillracklig text) <;>
      cases h3 : matchResultatPerFraga text <;>
        simp [h1, h2, h3]

/-- C3, witness: a text carrying the seven-point marker and the
`Resultat per fråga` section header is classified `7point`. -/
theorem C3_detectFormat_witness :
    ((matchNkiHelhet "en sjugradig skala. Resultat per fråga" ||
        matchKvalSkalsteg "en sjugradig skala. Resultat per fråga") = false) ∧
    ((matchSjugradig "en sjugradig skala. Resultat per fråga" ||
        matchOtillracklig "en sjugradig skala. Resultat per fråga") = true) ∧
    (matchResultatPerFraga "en sjugradig skala. Resultat per fråga" = true) ∧
    detectFormat "en sjugradig skala. Resultat per fråga" = .sevenPoint :=
  ⟨by decide, by decide, by decide,
    (((C3_detectFormat_total_first_match
          "en sjugradig skala. Resultat per fråga").2.2
        (by decide)).1 (by decide)).1.mpr (by decide)⟩

/-! ## Claims about the 5-point slicing -/

/-- C5 (confirmed): in gr-first layout (header has `GR` left of `Göteborg`)
with detected historical years `[2024, 2023]`, a data line yielding exactly 6
numeric tokens maps tokens 1–4 to GR/Göteborg/district/school and tokens 5–6
to the years 2024 and 2023, in that order. -/
theorem C5_grFirst_six_tokens (t1 t2 t3 t4 t5 t6 : ℚ) :
    detectColumnLayout5Point "   GR   Göteborg   District   School   2024   2023"
        = .grFirst ∧
    sliceValues5Point .grFirst [2024, 2023]
        [some t1, some t2, some t3, some t4, some t5, some t6]
      = { meanGr := some t1, meanGoteborg := some t2, meanDistrict := some t3,
          meanSchool := some t4,
          historicalMeans := [(2024, some t5), (2023, some t6)] } :=
  ⟨by decide, rfl⟩

/-- C8 (corrected, amended): a sliced 5-point row is never fully empty
provided the line carries at least 3 numeric tokens *and* the token count is
at most 4 plus the number of detected historical years, so that every token
position is covered by a geographic or historical column. -/
theorem C8_slice_not_empty (layout : ColumnLayout5Point)
    (historicalYears : List ℕ) (values : List (Option ℚ))
    (hcnt : 3 ≤ (values.filter Option.isSome).length)
    (hcov : values.length ≤ 4 + historicalYears.length) :
    rowHasValue (sliceValues5Point layout historicalYears values) = true := by
  have hlen3 : 3 ≤ values.length :=
    le_trans hcnt (List.length_filter_le _ values)
  obtain ⟨i, hi, hsome⟩ : ∃ i : ℕ, ∃ h : i < values.length, (values[i]).isSome := by
    have hne : values.filter Option.isSome ≠ [] := by
      intro hcon
      rw [hcon] at hcnt
      simp at hcnt
    obtain ⟨x, hx⟩ := List.exists_mem_of_ne_nil _ hne
    have hx' := List.mem_filter.mp hx
    obtain ⟨i, hi, hix⟩ := List.mem_iff_getElem.mp hx'.1
    exact ⟨i, hi, by rw [hix]; exact hx'.2⟩
  obtain ⟨v, hv⟩ := Option.isSome_iff_exists.mp hsome
  have hvq : values[i]? = some (some v) := by
    rw [List.getElem?_eq_getElem hi, hv]
  cases layout with
  | grFirst =>
    by_cases h4 : i < 4
    · simp only [sliceValues5Point, rowHasValue]
      interval_cases i
      · rw [hvq]
        simp
      · rw [if_pos (show 2 ≤ values.length by omega), hvq]
        simp
      · rw [if_pos (show 3 ≤ values.length by omega), hvq]
        simp
      · rw [if_pos (show 4 ≤ values.length by omega), hvq]
        simp
    · -- the token falls into the historical block
      simp only [sliceValues5Point, rowHasValue]
      have hjn : i + historicalYears.length - values.length < historicalYears.length := by
        omega
      have hmem : (i + historicalYears.length - values.length) ∈
          List.range historicalYears.length := List.mem_range.mpr hjn
      have hval : atIdx values ((values.length : ℤ) - historicalYears.length +
            ((i + historicalYears.length - values.length : ℕ) : ℤ)) = some v := by
        have hk : (values.length : ℤ) - historicalYears.length +
            ((i + historicalYears.length - values.length : ℕ) : ℤ) = (i : ℤ) := by
          omega
        rw [hk]
        unfold atIdx
        rw [if_neg (by omega)]
        simp only [Int.toNat_ofNat]
        rw [hvq]
        rfl
      have hany : (List.map (fun j => (historicalYears.getD j 0,
            atIdx values ((values.length : ℤ) - historicalYears.length + j)))
            (List.range historicalYears.length)).any (fun e => e.2.isSome) = true := by
        rw [List.any_eq_true]
        exact ⟨_, List.mem_map_of_mem _ hmem, by
          show (atIdx values ((values.length : ℤ) - historicalYears.length +
            ((i + historicalYears.length - values.length : ℕ) : ℤ))).isSome = true
          rw [hval]
          rfl⟩
      rw [hany]
      simp
  | grLast =>
    by_cases hgeo : values.length - 3 ≤ i
    · -- the token is one of the three geographic columns
      have hi3 : i = values.length - 1 ∨ i = values.length - 2 ∨
          i = values.length - 3 := by omega
      have hat : ∀ d : ℤ, (i : ℤ) = values.length - d → 1 ≤ d → d ≤ 3 →
          atIdx values ((values.length : ℤ) - d) = some v := by
        intro d hd h1 h3
        unfold atIdx
        rw [if_neg (by omega)]
        have htn : ((values.length : ℤ) - d).toNat = i := by omega
        rw [htn, hvq]
        rfl
      simp only [sliceValues5Point]
      by_cases hbranch : historicalYears.length < (values.take (values.length - 3)).length
      · rw [if_pos hbranch]
        simp only [rowHasValue]
        rcases hi3 with hd | hd | hd
        · rw [hat 1 (by omega) (by omega) (by omega)]
          simp
          left
          left
          left
          omega
        · rw [if_pos (show 2 ≤ values.length by omega),
            hat 2 (by omega) (by omega) (by omega)]
          simp
        · rw [if_pos (show 3 ≤ values.length by omega),
            hat 3 (by omega) (by omega) (by omega)]
          simp
      · rw [if_neg hbranch]
        simp only [rowHasValue]
        rcases hi3 with hd | hd | hd
        · rw [hat 1 (by omega) (by omega) (by omega)]
          simp
          left
          left
          left
          omega
        · rw [if_pos (show 2 ≤ values.length by omega),
            hat 2 (by omega) (by omega) (by omega)]
          simp
        · rw [if_pos (show 3 ≤ values.length by omega),
            hat 3 (by omega) (by omega) (by omega)]
          simp
    · -- the token is inside beforeGeo
      have hblen : (values.take (values.length - 3)).length = values.length - 3 := by
        rw [List.length_take]
        omega
      have hbq : (values.take (values.length - 3))[i]? = some (some v) := by
        rw [List.getElem?_take_of_lt (by omega), hvq]
      by_cases hbranch : historicalYears.length < (values.take (values.length - 3)).length
      · -- school aggregate branch: beforeGeo.length = numHist + 1
        have hb1 : (values.take (values.length - 3)).length
            = historicalYears.length + 1 := by
          rw [hblen] at hbranch ⊢
          omega
        simp only [sliceValues5Point]
        rw [if_pos hbranch]
        simp only [rowHasValue]
        by_cases hsch : i = historicalYears.length
        · -- the token is the school aggregate
          have : (values.take (values.length - 3))[(values.take
              (values.length - 3)).length - 1]? = some (some v) := by
            rw [hb1]
            simp only [Nat.add_sub_cancel]
            rw [← hsch]
            exact hbq
          rw [this]
          simp
        · -- the token is a historical value
          have hilt : i < historicalYears.length := by
            rw [hblen] at hb1
            omega
          have hmem : i ∈ List.range (min ((values.take (values.length - 3)).length - 1)
              historicalYears.length) := by
            rw [List.mem_range, hb1]
            omega
          have hdl : (values.take (values.length - 3)).dropLast[i]? = some (some v) := by
            rw [List.dropLast_eq_take, List.getElem?_take_of_lt (by rw [hb1]; omega)]
            exact hbq
          have hany : (List.map (fun j => (historicalYears.getD j 0,
                ((values.take (values.length - 3)).dropLast[j]?).join))
                (List.range (min ((values.take (values.length - 3)).length - 1)
                  historicalYears.length))).any (fun e => e.2.isSome) = true := by
            rw [List.any_eq_true]
            exact ⟨_, List.mem_map_of_mem _ hmem, by
              show (((values.take (values.length - 3)).dropLast[i]?).join).isSome = true
              rw [hdl]
              rfl⟩
          rw [hany]
          simp
      · -- no school aggregate branch
        simp only [sliceValues5Point]
        rw [if_neg hbranch]
        simp only [rowHasValue]
        have hmem : i ∈ List.range (min (values.take (values.length - 3)).length
            historicalYears.length) := by
          rw [List.mem_range]
          rw [hblen] at hbranch ⊢
          omega
        have hany : (List.map (fun j => (historicalYears.getD j 0,
              ((values.take (values.length - 3))[j]?).join))
              (List.range (min (values.take (values.length - 3)).length
                historicalYears.length))).any (fun e => e.2.isSome) = true := by
          rw [List.any_eq_true]
          refine ⟨_, List.mem_map_of_mem _ hmem, ?_⟩
          show (((values.take (values.length - 3))[i]?).join).isSome = true
          rw [hbq]
          rfl
        rw [hany]
        simp

/-- C8, witness: the amended non-emptiness at a concrete covered row. -/
theorem C8_slice_not_empty_witness :
    3 ≤ (([some 4.1, some 4.2, none, some 4.4, some 4.5, some 4.6] :
        List (Option ℚ)).filter Option.isSome).length ∧
    ([some 4.1, some 4.2, none, some 4.4, some 4.5, some 4.6] :
        List (Option ℚ)).length ≤ 4 + ([2024, 2023] : List ℕ).length ∧
    rowHasValue (sliceValues5Point .grFirst [2024, 2023]
      [some 4.1, some 4.2, none, some 4.4, some 4.5, some 4.6]) = true :=
  ⟨by decide, by decide,
    C8_slice_not_empty .grFirst [2024, 2023]
      [some 4.1, some 4.2, none, some 4.4, some 4.5, some 4.6]
      (by decide) (by decide)⟩

/-- C8, counterexample: the parser does emit a fully-empty mean row.  On a
page whose header carries no year tokens (`historicalYears` stays empty) and
whose data line has dashes in all four geographic columns followed by three
numeric tokens in intermediate columns, the `numericCount >= 3` gate passes,
yet the gr-first slice reads only the four leading dashes and an empty
historical block, so every field of the emitted row is null. -/
theorem C8_counterexample_empty_row :
    ¬ (((parseMeanRows5Point
        "   GR  G\xf6teborg\nEn fin fr\xe5ga om trivsel    -    -    -    -    3,21   3,31   3,41\n").1.all
          meanRowHasValue) = true) := by
  decide

/-! ## Lemmas about `parseDemographics` -/

theorem kvTail_pct_mem (cs : List Char) (v : ℕ) (h : kvTail cs = some v) :
    '%' ∈ cs := by
  simp only [kvTail] at h
  split at h
  case h_2 => exact absurd h (by simp)
  case h_1 c1 c2 rest =>
    split at h
    case isFalse => exact absurd h (by simp)
    case isTrue =>
      split at h
      case isTrue => exact absurd h (by simp)
      case isFalse =>
        split at h
        case h_2 => exact absurd h (by simp)
        case h_1 t heq =>
          have h1 : '%' ∈ (((rest.dropWhile isWsJS).dropWhile
              isDigitJS).dropWhile isWsJS) := by
            rw [heq]
            exact List.mem_cons_self _ _
          have h2 : '%' ∈ rest :=
            (List.dropWhile_suffix _).subset
              ((List.dropWhile_suffix _).subset
                ((List.dropWhile_suffix _).subset h1))
          exact List.mem_cons_of_mem _ (List.mem_cons_of_mem _ h2)

theorem kvFromBody_pct_mem (body : List Char) :
    ∀ (keyRev : List Char) (p : List Char × ℕ),
      kvFromBody keyRev body = some p → '%' ∈ body := by
  induction body with
  | nil => intro _ _ h; simp [kvFromBody] at h
  | cons c rest ih =>
    intro keyRev p h
    simp only [kvFromBody] at h
    split at h
    case h_1 v heq => exact List.mem_cons_of_mem _ (kvTail_pct_mem rest v heq)
    case h_2 => exact List.mem_cons_of_mem _ (ih _ _ h)

theorem kvOuter_pct_mem (n : ℕ) :
    ∀ (cs : List Char) (p : List Char × ℕ),
      kvOuter n cs = some p → '%' ∈ cs := by
  induction n with
  | zero =>
    intro cs p h
    simp only [kvOuter] at h
    exact kvFromBody_pct_mem _ _ _ h
  | succ n ih =>
    intro cs p h
    simp only [kvOuter] at h
    split at h
    case h_1 r heq => exact List.mem_of_mem_drop (kvFromBody_pct_mem _ _ _ heq)
    case h_2 => exact ih _ _ h

/-- A line with a `kvMatch` is not whitespace-only. -/
theorem kvMatchL_trim_ne (line : List Char) (p : List Char × ℕ)
    (h : kvMatchL line = some p) : (trimJS line).isEmpty = false := by
  have hp : '%' ∈ line := kvOuter_pct_mem _ _ _ h
  suffices hne : trimJS line ≠ [] by
    cases ht : trimJS line with
    | nil => exact absurd ht hne
    | cons a l => simp [List.isEmpty]
  intro ht
  unfold trimJS at ht
  rw [List.reverse_eq_nil_iff, List.dropWhile_eq_nil_iff] at ht
  have hmem : '%' ∈ line.dropWhile isWsJS := by
    have hsplit := List.takeWhile_append_dropWhile (p := isWsJS) (l := line)
    rw [← hsplit] at hp
    rcases List.mem_append.mp hp with h1 | h2
    · exact absurd (List.mem_takeWhile_imp h1) (by decide)
    · exact h2
  exact absurd (ht '%' (List.mem_reverse.mpr hmem)) (by decide)

/-- A step from a state outside the child-gender section, on a line that is
not the child-gender header, stays outside it and leaves its map alone. -/
theorem demoStep_child_stays (st : DemoState) (line : List Char)
    (h : st.inChildGender = false) (hh : childHeader line = false) :
    (demoStep st line).inChildGender = false ∧
    (demoStep st line).demo.childGenderDistribution =
      st.demo.childGenderDistribution := by
  cases hkv : kvMatchL line with
  | none =>
    simp only [demoStep, hh, hkv, Bool.false_eq_true, if_false]
    split_ifs <;> simp_all
  | some p =>
    obtain ⟨k, v⟩ := p
    simp only [demoStep, hh, hkv, Bool.false_eq_true, if_false]
    split_ifs <;> simp_all [addBirth, addParent]

/-- A step from a state outside the respondent-gender section, on a line that
is not its header, stays outside it and leaves its map alone. -/
theorem demoStep_parent_stays (st : DemoState) (line : List Char)
    (h : st.inParentGender = false) (hh : parentHeader line = false) :
    (demoStep st line).inParentGender = false ∧
    (demoStep st line).demo.parentGenderDistribution =
      st.demo.parentGenderDistribution := by
  cases hkv : kvMatchL line with
  | none =>
    simp only [demoStep, hh, hkv, Bool.false_eq_true, if_false]
    split_ifs <;> simp_all
  | some p =>
    obtain ⟨k, v⟩ := p
    simp only [demoStep, hh, hkv, Bool.false_eq_true, if_false]
    split_ifs <;> simp_all [addBirth, addChild]

theorem foldl_child_stays (lines : List (List Char)) :
    ∀ (st : DemoState), st.inChildGender = false →
      (∀ l ∈ lines, childHeader l = false) →
      (lines.foldl demoStep st).inChildGender = false ∧
      (lines.foldl demoStep st).demo.childGenderDistribution =
        st.demo.childGenderDistribution := by
  induction lines with
  | nil => exact fun st h _ => ⟨h, rfl⟩
  | cons l ls ih =>
    intro st h hh
    have hstep := demoStep_child_stays st l h (hh l (by simp))
    have hrest := ih (demoStep st l) hstep.1 (fun x hx => hh x (by simp [hx]))
    exact ⟨hrest.1, hrest.2.trans hstep.2⟩

theorem foldl_parent_stays (lines : List (List Char)) :
    ∀ (st : DemoState), st.inParentGender = false →
      (∀ l ∈ lines, parentHeader l = false) →
      (lines.foldl demoStep st).inParentGender = false ∧
      (lines.foldl demoStep st).demo.parentGenderDistribution =
        st.demo.parentGenderDistribution := by
  induction lines with
  | nil => exact fun st h _ => ⟨h, rfl⟩
  | cons l ls ih =>
    intro st h hh
    have hstep := demoStep_parent_stays st l h (hh l (by simp))
    have hrest := ih (demoStep st l) hstep.1 (fun x hx => hh x (by simp [hx]))
    exact ⟨hrest.1, hrest.2.trans hstep.2⟩

/-- C7, amended: the gender sections do close on the first invalid key.  For
the child-gender and respondent-gender categories, a key-value line whose
trimmed key is outside the category's valid key set closes the section (flag
cleared, map untouched), and from a closed section the flag stays cleared and
the map untouched over any run of lines containing no header of that
category.  (The birth-year category does not have this property; see the
counterexample.) -/
theorem C7_gender_sections_close :
    (∀ (st : DemoState) (line rawKey : List Char) (v : ℕ),
        st.inChildGender = true → st.inBirthYear = false →
        birthHeader line = false → childHeader line = false →
        parentHeader line = false →
        kvMatchL line = some (rawKey, v) →
        validChildKey (trimJS rawKey) = false →
        (demoStep st line).inChildGender = false ∧
        (demoStep st line).demo.childGenderDistribution =
          st.demo.childGenderDistribution) ∧
    (∀ (lines : List (List Char)) (st : DemoState),
        st.inChildGender = false →
        (∀ l ∈ lines, childHeader l = false) →
        (lines.foldl demoStep st).inChildGender = false ∧
        (lines.foldl demoStep st).demo.childGenderDistribution =
          st.demo.childGenderDistribution) ∧
    (∀ (st : DemoState) (line rawKey : List Char) (v : ℕ),
        st.inParentGender = true → st.inBirthYear = false →
        st.inChildGender = false →
        birthHeader line = false → childHeader line = false →
        parentHeader line = false →
        kvMatchL line = some (rawKey, v) →
        validParentKey (trimJS rawKey) = false →
        (demoStep st line).inParentGender = false ∧
        (demoStep st line).demo.parentGenderDistribution =
          st.demo.parentGenderDistribution) ∧
    (∀ (lines : List (List Char)) (st : DemoState),
        st.inParentGender = false →
        (∀ l ∈ lines, parentHeader l = false) →
        (lines.foldl demoStep st).inParentGender = false ∧
        (lines.foldl demoStep st).demo.parentGenderDistribution =
          st.demo.parentGenderDistribution) := by
  refine ⟨?_, foldl_child_stays, ?_, foldl_parent_stays⟩
  · intro st line rawKey v hcg hby hb hc hp hkv hvalid
    have htr := kvMatchL_trim_ne line _ hkv
    by_cases hterm : demoTerminator (trimJS line) = true
    · simp [demoStep, hb, hc, hp, htr, hby, hcg, hterm]
    · simp [demoStep, hb, hc, hp, htr, hby, hcg, hkv, hvalid, hterm]
  · intro st line rawKey v hpg hby hcg hb hc hp hkv hvalid
    have htr := kvMatchL_trim_ne line _ hkv
    by_cases hterm : demoTerminator (trimJS line) = true
    · simp [demoStep, hb, hc, hp, htr, hby, hcg, hpg, hterm]
    · simp [demoStep, hb, hc, hp, htr, hby, hcg, hpg, hkv, hvalid, hterm]

/-- C7, witness: the amended closure at concrete states and lines. -/
theorem C7_gender_sections_close_witness :
    ((demoStep ⟨⟨[], [("flicka".data, 48)], []⟩, false, true, false⟩
        "Okänd nyckel   12%".data).inChildGender = false ∧
      (demoStep ⟨⟨[], [("flicka".data, 48)], []⟩, false, true, false⟩
        "Okänd nyckel   12%".data).demo.childGenderDistribution =
        [("flicka".data, 48)]) ∧
    ((["2019   30%".data].foldl demoStep
        ⟨⟨[], [], []⟩, true, false, false⟩).inChildGender = false ∧
      (["2019   30%".data].foldl demoStep
        ⟨⟨[], [], []⟩, true, false, false⟩).demo.childGenderDistribution = []) ∧
    ((demoStep ⟨⟨[], [], [("kvinna".data, 52)]⟩, false, false, true⟩
        "Okänd nyckel   12%".data).inParentGender = false ∧
      (demoStep ⟨⟨[], [], [("kvinna".data, 52)]⟩, false, false, true⟩
        "Okänd nyckel   12%".data).demo.parentGenderDistribution =
        [("kvinna".data, 52)]) ∧
    ((["2019   30%".data].foldl demoStep
        ⟨⟨[], [], []⟩, true, false, false⟩).inParentGender = false ∧
      (["2019   30%".data].foldl demoStep
        ⟨⟨[], [], []⟩, true, false, false⟩).demo.parentGenderDistribution =
        []) := by
  refine ⟨?_, ?_, ?_, ?_⟩
  · exact C7_gender_sections_close.1 _ _ "Okänd nyckel".data 12
      (by decide) (by decide) (by decide) (by decide) (by decide)
      (by decide) (by decide)
  · exact C7_gender_sections_close.2.1 _ _ (by decide)
      (by intro l hl; fin_cases hl; decide)
  · exact C7_gender_sections_close.2.2.1 _ _ "Okänd nyckel".data 12
      (by decide) (by decide) (by decide) (by decide) (by decide)
      (by decide) (by decide) (by decide)
  · exact C7_gender_sections_close.2.2.2 _ _ (by decide)
      (by intro l hl; fin_cases hl; decide)

/-- C7, counterexample: the birth-year section is NOT closed by an invalid
key.  In the text below, the birth-year section is active when the key-value
line with invalid key `Flicka` is read (a four-digit year is required), yet
the later line `2019   30%` — with no birth-year header in between — still
adds an entry to the birth-year mapping: the invalid key is merely skipped. -/
theorem C7_counterexample_birth_year_not_closed :
    ((((splitLines "Barnets födelseår\n2020   15%\nFlicka   48%\n2019   30%".data).take 2).foldl demoStep demoInit).inBirthYear
        = true) ∧
    kvMatchL ((splitLines "Barnets födelseår\n2020   15%\nFlicka   48%\n2019   30%".data).getD 2 []) =
      some ("Flicka".data, 48) ∧
    isYear4 (trimJS "Flicka".data) = false ∧
    birthHeader ((splitLines "Barnets födelseår\n2020   15%\nFlicka   48%\n2019   30%".data).getD 3 []) = false ∧
    (((splitLines "Barnets födelseår\n2020   15%\nFlicka   48%\n2019   30%".data).take 3).foldl demoStep
        demoInit).demo.birthYearDistribution = [("2020".data, 15)] ∧
    (parseDemographics "Barnets födelseår\n2020   15%\nFlicka   48%\n2019   30%").birthYearDistribution =
      [("2020".data, 15), ("2019".data, 30)] := by
  decide

/-! ## Lemmas about `parseResponseDistributions` -/

/-- The fold of `prdGo` preserves: results are pairwise distinct in question
text, and every emitted question text is in the seen set. -/
theorem prdGo_inv (lines : List (List Char)) (mm : List (List Char × ℚ)) :
    ∀ (fuel i : ℕ) (st : PRDState),
      st.results.Pairwise (fun a b => a.questionText ≠ b.questionText) →
      (∀ r ∈ st.results, r.questionText ∈ st.seen) →
      (prdGo lines mm fuel i st).results.Pairwise
        (fun a b => a.questionText ≠ b.questionText) ∧
      ∀ r ∈ (prdGo lines mm fuel i st).results,
        r.questionText ∈ (prdGo lines mm fuel i st).seen := by
  intro fuel
  induction fuel with
  | zero => intro i st h1 h2; exact ⟨h1, h2⟩
  | succ fuel ih =>
    intro i st h1 h2
    rcases hc : collectGo lines i 4 i ([], [], i) with ⟨pcts, qtRaw, ll⟩
    simp only [prdGo, hc]
    split_ifs with hlt hs1 hs2 hs3 hs4 hs5 hg
    · exact ih _ _ h1 h2
    · exact ih _ _ h1 h2
    · exact ih _ _ h1 h2
    · exact ih _ _ h1 h2
    · exact ih _ _ h1 h2
    · -- the emit branch
      refine ih _ _ ?_ ?_
      · rw [prdEmit]
        rw [List.pairwise_append]
        refine ⟨h1, List.pairwise_singleton _ _, ?_⟩
        intro a ha b hb
        simp only [List.mem_singleton] at hb
        subst hb
        show a.questionText ≠ cleanQuestionTextL qtRaw
        rw [Bool.and_eq_true, Bool.and_eq_true] at hg
        have hseen := hg.2
        rw [Bool.not_eq_true'] at hseen
        have hnotin : ∀ x ∈ st.seen, x ≠ cleanQuestionTextL qtRaw := by
          intro x hx
          have := List.any_eq_true.not.mp (by rw [hseen]; simp)
          push_neg at this
          have hxq := this x hx
          simpa using hxq
        exact hnotin a.questionText (h2 a ha)
      · intro r hr
        rw [prdEmit] at hr ⊢
        simp only [List.mem_append] at hr ⊢
        rcases hr with hr | hr
        · exact Or.inl (h2 r hr)
        · simp only [List.mem_singleton] at hr
          subst hr
          simp
    · exact ih _ _ h1 h2
    · exact ⟨h1, h2⟩

/-- C10: deduplication at the distribution parser's interface — for every
layout text and means map, no two entries of the returned list share a
question text (the seen-set is checked before every push and extended with
every pushed text). -/
theorem C10_no_duplicate_question_text (layoutText : String)
    (mm : List (List Char × ℚ)) :
    (parseResponseDistributions layoutText mm).Pairwise
      (fun a b => a.questionText ≠ b.questionText) :=
  (prdGo_inv _ _ _ _ _ List.Pairwise.nil (by intro r hr; simp at hr)).1



end Forskole
